import Mathlib

/-!
Verification of the beadsprite_helper image-analysis core against its
natural-language specification.  The Python sources are shallowly embedded:
pure numeric code over machine floats whose values are exact decimals is
modelled over `ℚ` (the spec allows any numerically equivalent realisation of
the signal-processing path), colorimetric code using irrational powers is
modelled over `ℝ`, strings are `List Char`, and fallible operations return
`Option` or `Except`.
-/

namespace Beadsprite

set_option maxRecDepth 100000

section RatKernelEval

/- Core marks the arithmetic on `Rat` irreducible, which blocks `decide`
from evaluating the exact-rational signal pipeline below; restore the
default reducibility locally (until the real-valued colorimetry section,
which does not evaluate rationals) so concrete runs can be checked by
kernel reduction. -/
attribute [local semireducible] Rat.add Rat.sub Rat.mul Rat.inv List.mergeSort List.merge

/-! ## ColorSpace: hex parsing (src/backend/services/color_utils.py)

`hex_to_rgb` calls Python `int(s, 16)` on the three two-character slices of
the input after `lstrip('#')`.  We model `int(s, 16)` faithfully for ASCII
strings: surrounding whitespace is stripped, an optional sign and an
optional `0x`/`0X` prefix (itself optionally followed by one underscore)
are accepted, and the digits may contain single underscores between them.
-/

def isPyWS (c : Char) : Bool :=
  c = ' ' ∨ c = '\t' ∨ c = '\n' ∨ c = '\r' ∨ c = Char.ofNat 11 ∨ c = Char.ofNat 12

def isHexDig (c : Char) : Bool :=
  ('0' ≤ c ∧ c ≤ '9') ∨ ('a' ≤ c ∧ c ≤ 'f') ∨ ('A' ≤ c ∧ c ≤ 'F')

def hexVal (c : Char) : ℕ :=
  if '0' ≤ c ∧ c ≤ '9' then c.toNat - '0'.toNat
  else if 'a' ≤ c ∧ c ≤ 'f' then c.toNat - 'a'.toNat + 10
  else if 'A' ≤ c ∧ c ≤ 'F' then c.toNat - 'A'.toNat + 10
  else 0

/-- Digit run of `int(·, 16)` after the first digit: underscores are allowed
only between digits. `acc` is the value of the digits already read. -/
def hexDigitsVal (acc : ℕ) : List Char → Option ℕ
  | [] => some acc
  | c :: rest =>
    if c = '_' then
      match rest with
      | [] => none
      | d :: rest2 => if isHexDig d then hexDigitsVal (16 * acc + hexVal d) rest2 else none
    else if isHexDig c then hexDigitsVal (16 * acc + hexVal c) rest
    else none

/-- A nonempty digit run must begin with a hex digit (not an underscore). -/
def hexStart : List Char → Option ℕ
  | [] => none
  | c :: rest => if isHexDig c then hexDigitsVal (hexVal c) rest else none

/-- Body of `int(·, 16)` after sign removal: optional `0x`/`0X` prefix,
which may be followed by a single underscore, then digits. -/
def pyIntHexCore (l : List Char) : Option ℕ :=
  match l with
  | c0 :: c1 :: rest =>
    if c0 = '0' ∧ (c1 = 'x' ∨ c1 = 'X') then
      match rest with
      | [] => none
      | d :: r => if d = '_' then hexStart r else hexStart (d :: r)
    else hexStart (c0 :: c1 :: rest)
  | l => hexStart l

def pyStripWS (l : List Char) : List Char :=
  ((l.dropWhile isPyWS).reverse.dropWhile isPyWS).reverse

/-- Python `int(s, 16)` (ASCII model): strip whitespace, optional sign,
optional hex prefix, digits. -/
def pyIntHex (l : List Char) : Option ℤ :=
  match pyStripWS l with
  | [] => none
  | c :: r =>
    if c = '+' then (pyIntHexCore r).map (fun n => (n : ℤ))
    else if c = '-' then (pyIntHexCore r).map (fun n => -(n : ℤ))
    else (pyIntHexCore (c :: r)).map (fun n => (n : ℤ))

/-- Python `str.lstrip('#')` removes every leading `'#'`. -/
def lstripHash (l : List Char) : List Char := l.dropWhile (· = '#')

/-- `hex_to_rgb` from color_utils.py: strip leading hashes, then parse the
slices `[0:2]`, `[2:4]`, `[4:6]`; Python slicing clamps, so characters past
index 6 are ignored and short strings give short slices. -/
def hex_to_rgb (s : List Char) : Option (ℤ × ℤ × ℤ) :=
  let t := lstripHash s
  match pyIntHex (t.take 2), pyIntHex ((t.drop 2).take 2), pyIntHex ((t.drop 4).take 2) with
  | some a, some b, some c => some (a, b, c)
  | _, _, _ => none

def hexChar (n : ℕ) : Char :=
  if n < 10 then Char.ofNat ('0'.toNat + n) else Char.ofNat ('a'.toNat + n - 10)

/-- Little-endian hex digits of `n` (empty for 0), as in Python's `format`. -/
def natToHexRev (n : ℕ) : List Char :=
  if n = 0 then [] else hexChar (n % 16) :: natToHexRev (n / 16)
termination_by n
decreasing_by exact Nat.div_lt_self (Nat.pos_of_ne_zero (by assumption)) (by norm_num)

def pyHexDigits (n : ℕ) : List Char :=
  if n = 0 then ['0'] else (natToHexRev n).reverse

/-- Python `f-string` field `02x`: lowercase hex, zero-padded to width 2. -/
def pyHex02 (n : ℕ) : List Char :=
  let d := pyHexDigits n
  if d.length < 2 then '0' :: d else d

/-- `rgb_to_hex` from color_utils.py. -/
def rgb_to_hex (r g b : ℕ) : List Char :=
  '#' :: (pyHex02 r ++ pyHex02 g ++ pyHex02 b)

/-! Facts about hex characters and two-character parses. -/

theorem hexChar_facts : ∀ n : Fin 16,
    isHexDig (hexChar n) = true ∧ hexVal (hexChar n) = n ∧
    (('0' ≤ hexChar n ∧ hexChar n ≤ '9') ∨ ('a' ≤ hexChar n ∧ hexChar n ≤ 'f')) := by decide

theorem hexDig_not_special {c : Char} (h : isHexDig c = true) :
    isPyWS c = false ∧ c ≠ '+' ∧ c ≠ '-' ∧ c ≠ '_' ∧ c ≠ 'x' ∧ c ≠ 'X' ∧ c ≠ '#' := by
  refine ⟨?_, ?_, ?_, ?_, ?_, ?_, ?_⟩
  · by_contra hcon
    have hws : isPyWS c = true := by
      cases hb : isPyWS c with
      | false => exact absurd hb hcon
      | true => rfl
    simp only [isPyWS, decide_eq_true_eq] at hws
    rcases hws with e | e | e | e | e | e <;> (subst e; exact absurd h (by decide))
  all_goals (intro e; subst e; exact absurd h (by decide))

theorem pyIntHex_two_hex {c1 c2 : Char} (h1 : isHexDig c1 = true) (h2 : isHexDig c2 = true) :
    pyIntHex [c1, c2] = some ((16 * hexVal c1 + hexVal c2 : ℕ) : ℤ) := by
  obtain ⟨w1, p1, m1, _, x1, X1, _⟩ := hexDig_not_special h1
  obtain ⟨w2, p2, m2, u2, _, _, _⟩ := hexDig_not_special h2
  have hstrip : pyStripWS [c1, c2] = [c1, c2] := by
    simp [pyStripWS, List.dropWhile, w1, w2]
  have hcore : pyIntHexCore [c1, c2] = some (16 * hexVal c1 + hexVal c2) := by
    have hnotpre : ¬ (c1 = '0' ∧ (c2 = 'x' ∨ c2 = 'X')) := by
      rintro ⟨-, h | h⟩ <;> simp_all
    simp [pyIntHexCore, hnotpre, hexStart, h1, hexDigitsVal, u2, h2]
  simp [pyIntHex, hstrip, p1, m1, hcore]

theorem lstripHash_replicate (k : ℕ) (u : List Char) :
    lstripHash (List.replicate k '#' ++ u) = lstripHash u := by
  induction k with
  | zero => simp
  | succ n ih =>
    rw [List.replicate_succ, List.cons_append, lstripHash,
      List.dropWhile_cons_of_pos (by decide)]
    exact ih

theorem lstripHash_cons_ne {c : Char} (h : c ≠ '#') (u : List Char) :
    lstripHash (c :: u) = c :: u := by
  simp [lstripHash, List.dropWhile, h]

/-- C4 (amended, positive half): after removing every leading `'#'`, if the
first six remaining characters are hex digits the parse succeeds with the
three bytes they encode, and all later characters are ignored. -/
theorem hex_to_rgb_amended (k : ℕ) (c0 c1 c2 c3 c4 c5 : Char) (rest : List Char)
    (h0 : isHexDig c0 = true) (h1 : isHexDig c1 = true) (h2 : isHexDig c2 = true)
    (h3 : isHexDig c3 = true) (h4 : isHexDig c4 = true) (h5 : isHexDig c5 = true) :
    hex_to_rgb (List.replicate k '#' ++ [c0, c1, c2, c3, c4, c5] ++ rest) =
      some (((16 * hexVal c0 + hexVal c1 : ℕ) : ℤ),
            ((16 * hexVal c2 + hexVal c3 : ℕ) : ℤ),
            ((16 * hexVal c4 + hexVal c5 : ℕ) : ℤ)) := by
  have hne : c0 ≠ '#' := (hexDig_not_special h0).2.2.2.2.2.2
  have ht : lstripHash (List.replicate k '#' ++ [c0, c1, c2, c3, c4, c5] ++ rest) =
      c0 :: c1 :: c2 :: c3 :: c4 :: c5 :: rest := by
    rw [List.append_assoc, lstripHash_replicate]
    exact lstripHash_cons_ne hne ([c1, c2, c3, c4, c5] ++ rest)
  simp only [hex_to_rgb, ht, List.take_succ_cons, List.take_zero, List.drop_succ_cons,
    List.drop_zero]
  rw [pyIntHex_two_hex h0 h1, pyIntHex_two_hex h2 h3, pyIntHex_two_hex h4 h5]

/-- C4 witness: a concrete instance of the amended statement, with two
leading hashes and two trailing junk characters. -/
theorem hex_to_rgb_amended_witness :
    hex_to_rgb (List.replicate 2 '#' ++ ['f', 'f', '0', '0', '0', '0'] ++ ['z', 'z']) =
      some (255, 0, 0) := by
  rw [hex_to_rgb_amended 2 'f' 'f' '0' '0' '0' '0' ['z', 'z']
    (by decide) (by decide) (by decide) (by decide) (by decide) (by decide)]
  decide

/-- C4 counterexample: `"12345678"` has eight (not six) hex digits after
stripping, yet the code parses it successfully as `(0x12, 0x34, 0x56)`,
ignoring the trailing `"78"`; the claim says any such string must fail. -/
theorem hex_to_rgb_c4_counterexample :
    hex_to_rgb ("12345678".toList) = some (18, 52, 86) ∧
    (lstripHash "12345678".toList).length = 8 := by decide

theorem pyHex02_eq (r : ℕ) (h : r ≤ 255) :
    pyHex02 r = [hexChar (r / 16), hexChar (r % 16)] := by
  by_cases h16 : r < 16
  · have hd0 : r / 16 = 0 := Nat.div_eq_of_lt h16
    by_cases h0 : r = 0
    · subst h0; decide
    · have hm : r % 16 = r := Nat.mod_eq_of_lt h16
      rw [pyHex02, pyHexDigits, if_neg h0, natToHexRev, if_neg h0, hm, hd0,
        natToHexRev.eq_def, if_pos rfl]
      rfl
  · have h1 : r ≠ 0 := by omega
    have h2 : r / 16 ≠ 0 := by omega
    have h3 : r / 16 / 16 = 0 := by omega
    have h4 : r / 16 % 16 = r / 16 := by omega
    rw [pyHex02, pyHexDigits, if_neg h1, natToHexRev, if_neg h1, natToHexRev, if_neg h2,
      natToHexRev.eq_def, h3, if_pos rfl, h4]
    rfl

/-- C9: `rgb_to_hex` yields `'#'` followed by six zero-padded lowercase hex
digits and is inverted by `hex_to_rgb`. -/
theorem rgb_to_hex_inverse (r g b : ℕ) (hr : r ≤ 255) (hg : g ≤ 255) (hb : b ≤ 255) :
    hex_to_rgb (rgb_to_hex r g b) = some ((r : ℤ), (g : ℤ), (b : ℤ)) ∧
    rgb_to_hex r g b =
      '#' :: [hexChar (r / 16), hexChar (r % 16), hexChar (g / 16), hexChar (g % 16),
              hexChar (b / 16), hexChar (b % 16)] ∧
    ∀ c ∈ (rgb_to_hex r g b).tail, ('0' ≤ c ∧ c ≤ '9') ∨ ('a' ≤ c ∧ c ≤ 'f') := by
  obtain ⟨dr, vr, lr⟩ := hexChar_facts ⟨r / 16, by omega⟩
  obtain ⟨dr2, vr2, lr2⟩ := hexChar_facts ⟨r % 16, by omega⟩
  obtain ⟨dg, vg, lg⟩ := hexChar_facts ⟨g / 16, by omega⟩
  obtain ⟨dg2, vg2, lg2⟩ := hexChar_facts ⟨g % 16, by omega⟩
  obtain ⟨db, vb, lb⟩ := hexChar_facts ⟨b / 16, by omega⟩
  obtain ⟨db2, vb2, lb2⟩ := hexChar_facts ⟨b % 16, by omega⟩
  simp only [Fin.val_mk] at dr vr lr dr2 vr2 lr2 dg vg lg dg2 vg2 lg2 db vb lb db2 vb2 lb2
  have e : rgb_to_hex r g b =
      '#' :: [hexChar (r / 16), hexChar (r % 16), hexChar (g / 16), hexChar (g % 16),
              hexChar (b / 16), hexChar (b % 16)] := by
    rw [rgb_to_hex, pyHex02_eq r hr, pyHex02_eq g hg, pyHex02_eq b hb]
    rfl
  refine ⟨?_, e, ?_⟩
  · rw [e]
    have ht : lstripHash ('#' :: [hexChar (r / 16), hexChar (r % 16), hexChar (g / 16),
        hexChar (g % 16), hexChar (b / 16), hexChar (b % 16)]) =
        [hexChar (r / 16), hexChar (r % 16), hexChar (g / 16), hexChar (g % 16),
         hexChar (b / 16), hexChar (b % 16)] := by
      rw [lstripHash]
      rw [List.dropWhile_cons_of_pos (by decide)]
      exact lstripHash_cons_ne (hexDig_not_special dr).2.2.2.2.2.2 _
    simp only [hex_to_rgb, ht, List.take_succ_cons, List.take_zero, List.drop_succ_cons,
      List.drop_zero]
    rw [pyIntHex_two_hex dr dr2, pyIntHex_two_hex dg dg2, pyIntHex_two_hex db db2,
      vr, vr2, vg, vg2, vb, vb2]
    have : ∀ n : ℕ, 16 * (n / 16) + n % 16 = n := fun n => by omega
    rw [this r, this g, this b]
  · rw [e]
    intro c hc
    simp only [List.tail_cons, List.mem_cons, List.not_mem_nil, or_false] at hc
    rcases hc with rfl | rfl | rfl | rfl | rfl | rfl
    · exact lr
    · exact lr2
    · exact lg
    · exact lg2
    · exact lb
    · exact lb2

/-- C9 witness at a concrete color. -/
theorem rgb_to_hex_inverse_witness :
    hex_to_rgb (rgb_to_hex 255 0 0) = some (255, 0, 0) := by
  have h := (rgb_to_hex_inverse 255 0 0 (by decide) (by decide) (by decide)).1
  exact_mod_cast h

/-! ## GridDetector (src/backend/services/grid_detection.py)

The autocorrelation pipeline works on float64 arrays whose inputs are
exact (uint8 channels averaged by 3).  The spec states that any numerically
equivalent realisation of the correlation is acceptable, so the pipeline is
modelled with exact rational arithmetic: grayscale reduction, direct-sum
`same`-mode autocorrelation, and `scipy.signal.find_peaks` with the
`prominence` and `distance` keywords.  The `0.1 * np.std` prominence
threshold compares a square root; since prominences are nonnegative the
comparison `0.1 * std ≤ prom` is modelled by the equivalent squared form.
-/

/-- An RGB image: `pix y x` is the pixel at row `y`, column `x`, as in
`img_array[y, x]`. Accesses outside `width × height` never occur in the
claims below. -/
structure RGBImage where
  width : ℕ
  height : ℕ
  pix : ℕ → ℕ → ℕ × ℕ × ℕ

/-- Grayscale reduction `np.mean(img_array, axis=2)`. -/
def grayAt (img : RGBImage) (y x : ℕ) : ℚ :=
  ((img.pix y x).1 + (img.pix y x).2.1 + (img.pix y x).2.2 : ℚ) / 3

/-- Value of a (possibly out-of-range) signal sample, zero outside. -/
def getQ (x : List ℚ) (i : ℤ) : ℚ :=
  if 0 ≤ i ∧ i < (x.length : ℤ) then x.getD i.toNat 0 else 0

/-- One lag of the full autocorrelation: `offset` is the lag. -/
def corrAt (x : List ℚ) (off : ℤ) : ℚ :=
  Finset.sum (Finset.range x.length) (fun i => x.getD i 0 * getQ x ((i : ℤ) + off))

/-- `scipy.signal.correlate(x, x, mode='same')`: the middle `n` entries of
the full autocorrelation, whose zero lag sits at index `n / 2`. -/
def correlateSame (x : List ℚ) : List ℚ :=
  (List.range x.length).map
    (fun j => corrAt x (((j + (x.length - 1) / 2 : ℕ) : ℤ) - ((x.length - 1 : ℕ) : ℤ)))

/-- Plateau scan of `scipy.signal._local_maxima_1d`: advance while the
samples equal the plateau value `v`, stopping at `iMax`.  The structural
`fuel` argument only needs to dominate `iMax - j`, which every call site
ensures; the loop semantics are unchanged. -/
def plateauEnd (x : List ℚ) (iMax : ℕ) (v : ℚ) : ℕ → ℕ → ℕ
  | 0, j => j
  | fuel + 1, j =>
    if j < iMax ∧ x.getD j 0 = v then plateauEnd x iMax v fuel (j + 1) else j

theorem le_plateauEnd (x : List ℚ) (iMax : ℕ) (v : ℚ) :
    ∀ fuel j, j ≤ plateauEnd x iMax v fuel j := by
  intro fuel
  induction fuel with
  | zero => intro j; simp [plateauEnd]
  | succ n ih =>
    intro j
    rw [plateauEnd]
    split
    · exact le_trans (by omega) (ih (j + 1))
    · exact le_rfl

theorem plateauEnd_le (x : List ℚ) (iMax : ℕ) (v : ℚ) :
    ∀ fuel j, j ≤ iMax → plateauEnd x iMax v fuel j ≤ iMax := by
  intro fuel
  induction fuel with
  | zero => intro j h; simpa [plateauEnd] using h
  | succ n ih =>
    intro j h
    rw [plateauEnd]
    split
    · exact ih (j + 1) (by omega)
    · exact h

/-- Main loop of `scipy.signal._local_maxima_1d`: indices `1 ≤ i < iMax`,
strict rise then strict fall around an (optional) plateau, reporting the
plateau midpoint.  `fuel ≥ iMax - i` at every call site, so the fuel never
runs out before the loop condition `i < iMax` fails. -/
def localMaximaAux (x : List ℚ) (iMax : ℕ) : ℕ → ℕ → List ℕ
  | 0, _ => []
  | fuel + 1, i =>
    if i < iMax then
      if x.getD (i - 1) 0 < x.getD i 0 then
        let ia := plateauEnd x iMax (x.getD i 0) iMax (i + 1)
        if x.getD ia 0 < x.getD i 0 then
          (i + (ia - 1)) / 2 :: localMaximaAux x iMax fuel (ia + 1)
        else localMaximaAux x iMax fuel (i + 1)
      else localMaximaAux x iMax fuel (i + 1)
    else []

def localMaxima (x : List ℚ) : List ℕ := localMaximaAux x (x.length - 1) x.length 1

/-- Left half of the removal loop in `_select_by_peak_distance`: clear
`keep` for peak positions `k, k-1, ...` while they are closer than the
minimal distance 5 to the accepted peak at `pj`. -/
def killLeftFrom (pk : List ℤ) (pj : ℤ) : ℕ → List Bool → List Bool
  | 0, keep => if pj - pk.getD 0 0 < 5 then keep.set 0 false else keep
  | k + 1, keep =>
    if pj - pk.getD (k + 1) 0 < 5 then killLeftFrom pk pj k (keep.set (k + 1) false) else keep

/-- Right half of the removal loop in `_select_by_peak_distance`; the
structural `fuel` dominates `n - k` at every call site. -/
def killRightFrom (pk : List ℤ) (pj : ℤ) (n : ℕ) : ℕ → ℕ → List Bool → List Bool
  | 0, _, keep => keep
  | fuel + 1, k, keep =>
    if k < n ∧ pk.getD k 0 - pj < 5 then killRightFrom pk pj n fuel (k + 1) (keep.set k false)
    else keep

/-- Removal loop of `_select_by_peak_distance`, processing peaks from the
highest priority downwards. -/
def sbdLoop (pk : List ℤ) : List ℕ → List Bool → List Bool
  | [], keep => keep
  | j :: rest, keep =>
    sbdLoop pk rest
      (if keep.getD j false then
        killRightFrom pk (pk.getD j 0) pk.length pk.length (j + 1)
          (match j with
            | 0 => keep
            | jm + 1 => killLeftFrom pk (pk.getD j 0) jm keep)
      else keep)

/-- Indices sorted by priority (as `np.argsort`), highest priority first
after the reversal; ties are broken deterministically by index, matching
the stable small-array behaviour of numpy's sort. -/
def selectSortIdx (priority : List ℚ) : List ℕ :=
  (List.insertionSort
    (fun a b => priority.getD a 0 < priority.getD b 0 ∨
      (priority.getD a 0 = priority.getD b 0 ∧ a ≤ b))
    (List.range priority.length)).reverse

def maskFilter (l : List ℕ) (keep : List Bool) : List ℕ :=
  (l.zip keep).filterMap (fun p => if p.2 then some p.1 else none)

/-- `scipy.signal._select_by_peak_distance` with `distance = 5`. -/
def selectByPeakDistance (peaks : List ℕ) (priority : List ℚ) : List ℕ :=
  maskFilter peaks
    (sbdLoop (peaks.map (fun p => (p : ℤ))) (selectSortIdx priority)
      (List.replicate peaks.length true))

/-- Left descent of `_peak_prominences`: walk left from the peak while
samples do not exceed the peak value, tracking the running minimum. -/
def promLeftMin (x : List ℚ) (v : ℚ) : ℕ → ℚ → ℚ
  | 0, cur => cur
  | i + 1, cur => if x.getD (i + 1) 0 ≤ v then promLeftMin x v i (min cur (x.getD i 0)) else cur

/-- Right descent of `_peak_prominences`; `fuel` dominates `iMax - i`. -/
def promRightMin (x : List ℚ) (v : ℚ) (iMax : ℕ) : ℕ → ℕ → ℚ → ℚ
  | 0, _, cur => cur
  | fuel + 1, i, cur =>
    if i < iMax ∧ x.getD i 0 ≤ v then
      promRightMin x v iMax fuel (i + 1) (min cur (x.getD (i + 1) 0))
    else cur

/-- Prominence of the peak at index `p` (`scipy.signal._peak_prominences`,
no `wlen` window). -/
def prominence (x : List ℚ) (p : ℕ) : ℚ :=
  v - max (promLeftMin x v p v) (promRightMin x v (x.length - 1) x.length p v)
where v := x.getD p 0

/-- Population variance, `np.std(x) ** 2`. -/
def varPop (x : List ℚ) : ℚ :=
  ((x.map (fun a => (a - x.sum / x.length) ^ 2)).sum) / x.length

/-- The prominence filter keeps a peak when
`np.std(x) * 0.1 ≤ prominence`; prominences are nonnegative, so the
square-root comparison is modelled by its squared equivalent. -/
def promKeep (x : List ℚ) (p : ℕ) : Bool :=
  decide (0 ≤ prominence x p ∧ varPop x ≤ 100 * prominence x p ^ 2)

/-- `scipy.signal.find_peaks(x, prominence=np.std(x)*0.1, distance=5)`:
local maxima, then the distance filter, then the prominence filter. -/
def find_peaks_prom_dist (x : List ℚ) : List ℕ :=
  let peaks := localMaxima x
  (selectByPeakDistance peaks (peaks.map (fun p => x.getD p 0))).filter (promKeep x)

/-- `np.diff`. -/
def npdiff (x : List ℚ) : List ℚ := List.zipWith (fun a b => b - a) x x.tail

def npargmaxAux : List ℚ → ℕ → ℕ → ℚ → ℕ
  | [], _, bi, _ => bi
  | a :: rest, i, bi, bv =>
    if bv < a then npargmaxAux rest (i + 1) i a else npargmaxAux rest (i + 1) bi bv

/-- `np.argmax`: index of the first occurrence of the maximum. -/
def npargmax : List ℚ → ℕ
  | [] => 0
  | a :: rest => npargmaxAux rest 1 0 a

/-- `find_periodic_peak` from grid_detection.py: drop the zero-lag sample,
then try the three escalating tiers. -/
def find_periodic_peak (line : List ℚ) (max_size : ℕ) : Option ℕ :=
  let line1 := line.drop 1
  let searchRange := min max_size line1.length
  if searchRange < 3 then none
  else
    let searchLine := line1.take searchRange
    match find_peaks_prom_dist searchLine with
    | p :: _ => some (p + 1)
    | [] =>
      match (List.range' 5 (searchRange - 1 - 5)).find? (fun i =>
          decide (searchLine.getD (i - 1) 0 < searchLine.getD i 0 ∧
            searchLine.getD (i + 1) 0 < searchLine.getD i 0)) with
      | some i => some (i + 1)
      | none =>
        if 10 < searchRange then
          let candidate := npargmax ((npdiff (npdiff searchLine)).drop 5) + 5 + 1
          if candidate ≤ max_size then some candidate else none
        else none

/-- `detect_grid_autocorrelation`: center square crop (side at most 256),
center scanlines, `same`-mode autocorrelation, then the non-negative-lag
half starting at the zero lag. -/
def detect_grid_autocorrelation (img : RGBImage) (max_pixel_size : ℕ) :
    Option (ℕ × ℕ × ℚ) :=
  let cropSize := min 256 (min img.height img.width)
  let cs2 := cropSize / 2
  let y0 := img.height / 2 - cs2
  let x0 := img.width / 2 - cs2
  let m := 2 * cs2
  let centerRow := (List.range m).map (fun j => grayAt img (y0 + cropSize / 2) (x0 + j))
  let centerCol := (List.range m).map (fun i => grayAt img (y0 + i) (x0 + cropSize / 2))
  let hAuto := correlateSame centerRow
  let vAuto := correlateSame centerCol
  match find_periodic_peak (hAuto.drop (hAuto.length / 2)) max_pixel_size,
        find_periodic_peak (vAuto.drop (vAuto.length / 2)) max_pixel_size with
  | some pw, some ph => some (pw, ph, 9 / 10)
  | _, _ => none

structure GridInfo where
  cell_width : ℕ
  cell_height : ℕ
  grid_cols : ℕ
  grid_rows : ℕ
  confidence : ℚ
deriving DecidableEq

set_option linter.unusedVariables false in
/-- `detect_grid` from grid_detection.py.  The `min_cell_size` argument is
accepted but — exactly as in the source — never used. -/
def detect_grid (img : RGBImage) (min_cell_size max_cell_size : ℕ) : Option GridInfo :=
  match detect_grid_autocorrelation img max_cell_size with
  | none => none
  | some (cw, ch, conf) => some ⟨cw, ch, img.width / cw, img.height / ch, conf⟩

/-- A uniform image of one color. -/
def uniformImg (w h r g b : ℕ) : RGBImage := ⟨w, h, fun _ _ => (r, g, b)⟩

/-- A 24×24 image of vertical stripes with period 3. -/
def stripes3Img : RGBImage :=
  ⟨24, 24, fun _ x => if x % 3 = 0 then (255, 255, 255) else (0, 0, 0)⟩

/-! Structural facts shared by the grid-detection claims. -/

theorem detect_grid_autocorrelation_conf (img : RGBImage) (ms : ℕ) (t : ℕ × ℕ × ℚ)
    (h : detect_grid_autocorrelation img ms = some t) : t.2.2 = 9 / 10 := by
  simp only [detect_grid_autocorrelation] at h
  split at h
  · obtain rfl := Option.some_injective _ h
    rfl
  · exact absurd h (by simp)

theorem localMaximaAux_mem_bounds (x : List ℚ) (iMax : ℕ) :
    ∀ fuel i j, j ∈ localMaximaAux x iMax fuel i → 1 ≤ i → i ≤ j ∧ j ≤ iMax - 1 := by
  intro fuel
  induction fuel with
  | zero => intro i j h; simp [localMaximaAux] at h
  | succ n ih =>
    intro i j h hi
    simp only [localMaximaAux] at h
    by_cases h1 : i < iMax
    · rw [if_pos h1] at h
      by_cases h2 : x.getD (i - 1) 0 < x.getD i 0
      · rw [if_pos h2] at h
        have hia1 : i + 1 ≤ plateauEnd x iMax (x.getD i 0) iMax (i + 1) :=
          le_plateauEnd x iMax _ iMax (i + 1)
        have hia2 : plateauEnd x iMax (x.getD i 0) iMax (i + 1) ≤ iMax :=
          plateauEnd_le x iMax _ iMax (i + 1) (by omega)
        by_cases h3 : x.getD (plateauEnd x iMax (x.getD i 0) iMax (i + 1)) 0 < x.getD i 0
        · rw [if_pos h3] at h
          rcases List.mem_cons.mp h with rfl | hmem
          · omega
          · have := ih _ j hmem (by omega)
            omega
        · rw [if_neg h3] at h
          have := ih _ j h (by omega)
          omega
      · rw [if_neg h2] at h
        have := ih _ j h (by omega)
        omega
    · rw [if_neg h1] at h
      simp at h

theorem maskFilter_subset (l : List ℕ) (keep : List Bool) : ∀ a ∈ maskFilter l keep, a ∈ l := by
  intro a ha
  simp only [maskFilter, List.mem_filterMap] at ha
  obtain ⟨⟨b, c⟩, hmem, hcond⟩ := ha
  have hbl := (List.of_mem_zip hmem).1
  by_cases hc : c
  · simp only [hc, if_true, Option.some_injective] at hcond
    obtain rfl := Option.some_injective _ hcond
    exact hbl
  · simp [hc] at hcond

theorem find_peaks_prom_dist_mem_bounds (x : List ℚ) :
    ∀ p ∈ find_peaks_prom_dist x, 1 ≤ p ∧ p ≤ x.length - 2 := by
  intro p hp
  simp only [find_peaks_prom_dist] at hp
  have hp2 := (List.mem_filter.mp hp).1
  have hp3 := maskFilter_subset _ _ _ hp2
  have := localMaximaAux_mem_bounds x (x.length - 1) x.length 1 p hp3 le_rfl
  omega

theorem find_periodic_peak_bounds (line : List ℚ) (ms p : ℕ)
    (h : find_periodic_peak line ms = some p) : 2 ≤ p ∧ p ≤ ms := by
  simp only [find_periodic_peak] at h
  split at h
  · exact absurd h (by simp)
  · rename_i hsr
    have hsr3 : 3 ≤ min ms (line.drop 1).length := by omega
    have hlen : ((line.drop 1).take (min ms (line.drop 1).length)).length =
        min ms (line.drop 1).length := by
      simp [List.length_take]
    split at h
    · rename_i p' rest heq
      obtain rfl := Option.some_injective _ h
      have hmem : p' ∈ find_peaks_prom_dist ((line.drop 1).take (min ms (line.drop 1).length)) := by
        rw [heq]; exact List.mem_cons_self _ _
      have hb := find_peaks_prom_dist_mem_bounds _ _ hmem
      rw [hlen] at hb
      omega
    · split at h
      · rename_i i heq
        obtain rfl := Option.some_injective _ h
        have hmem := List.mem_of_find?_eq_some heq
        have := List.mem_range'.mp hmem
        omega
      · split at h
        · rename_i h10
          split at h
          · rename_i hcand
            obtain rfl := Option.some_injective _ h
            omega
          · exact absurd h (by simp)
        · exact absurd h (by simp)

theorem detect_grid_cell_bounds (img : RGBImage) (minc maxc : ℕ) (g : GridInfo)
    (h : detect_grid img minc maxc = some g) :
    2 ≤ g.cell_width ∧ g.cell_width ≤ maxc ∧ 2 ≤ g.cell_height ∧ g.cell_height ≤ maxc := by
  simp only [detect_grid] at h
  split at h
  · exact absurd h (by simp)
  · rename_i cw ch conf heq
    obtain rfl := Option.some_injective _ h
    simp only [detect_grid_autocorrelation] at heq
    split at heq
    · rename_i pw ph h1 h2
      have h3 := Option.some_injective _ heq
      simp only [Prod.mk.injEq] at h3
      obtain ⟨rfl, rfl, rfl⟩ := h3
      have b1 := find_periodic_peak_bounds _ _ _ h1
      have b2 := find_periodic_peak_bounds _ _ _ h2
      exact ⟨b1.1, b1.2, b2.1, b2.2⟩
    · exact absurd heq (by simp)

theorem detect_grid_structure_aux (img : RGBImage) (minc maxc : ℕ) (g : GridInfo)
    (h : detect_grid img minc maxc = some g) :
    g.grid_cols = img.width / g.cell_width ∧ g.grid_rows = img.height / g.cell_height ∧
    g.confidence = 9 / 10 := by
  simp only [detect_grid] at h
  split at h
  · exact absurd h (by simp)
  · rename_i cw ch conf heq
    obtain rfl := Option.some_injective _ h
    exact ⟨rfl, rfl, detect_grid_autocorrelation_conf img maxc (cw, ch, conf) heq⟩

/-- C1 counterexample: the all-black 24×24 image is perfectly uniform, yet
`detect_grid` does not return `none`: the two curvature fallbacks fire
(the second difference of the strictly decreasing autocorrelation tail is
constant, so `argmax` picks its first entry) and a 6×6 grid is reported. -/
theorem detect_grid_uniform_black_counterexample :
    detect_grid (uniformImg 24 24 0 0 0) 2 50 = some ⟨6, 6, 4, 4, 9 / 10⟩ := by decide

/-- C2 counterexample: on the period-3 stripe image with
`min_cell_size = 10` the detected `cell_width` is 3, outside the claimed
interval `[min_cell_size, max_cell_size]` — `detect_grid` never reads
`min_cell_size`. -/
theorem detect_grid_min_cell_counterexample :
    detect_grid stripes3Img 10 50 = some ⟨3, 6, 8, 4, 9 / 10⟩ ∧ ¬ 10 ≤ 3 := by
  exact ⟨by decide, by decide⟩

/-- C2 (amended): whenever `detect_grid` succeeds, the returned cell sizes
lie in `[2, max_cell_size]`; the `min_cell_size` argument is ignored by the
implementation, so only the lower bound 2 (inherent to the peak search)
holds, not `min_cell_size`. -/
theorem detect_grid_cell_size_range (img : RGBImage) (minc maxc : ℕ) (g : GridInfo)
    (h : detect_grid img minc maxc = some g) :
    2 ≤ g.cell_width ∧ g.cell_width ≤ maxc ∧ 2 ≤ g.cell_height ∧ g.cell_height ≤ maxc :=
  detect_grid_cell_bounds img minc maxc g h

/-- C2 witness: a concrete successful detection, with cell sizes inside
`[2, 50]`. -/
theorem detect_grid_cell_size_range_witness :
    detect_grid stripes3Img 10 50 = some ⟨3, 6, 8, 4, 9 / 10⟩ ∧
    (2 ≤ (⟨3, 6, 8, 4, 9 / 10⟩ : GridInfo).cell_width ∧
      (⟨3, 6, 8, 4, 9 / 10⟩ : GridInfo).cell_width ≤ 50 ∧
      2 ≤ (⟨3, 6, 8, 4, 9 / 10⟩ : GridInfo).cell_height ∧
      (⟨3, 6, 8, 4, 9 / 10⟩ : GridInfo).cell_height ≤ 50) :=
  ⟨by decide, detect_grid_cell_size_range stripes3Img 10 50 _ (by decide)⟩

/-- C7: every successful `detect_grid` result has
`grid_cols = width / cell_width`, `grid_rows = height / cell_height`
(integer division) and the fixed confidence `0.9`. -/
theorem detect_grid_invariants (img : RGBImage) (minc maxc : ℕ) (g : GridInfo)
    (h : detect_grid img minc maxc = some g) :
    g.grid_cols = img.width / g.cell_width ∧ g.grid_rows = img.height / g.cell_height ∧
    g.confidence = 9 / 10 :=
  detect_grid_structure_aux img minc maxc g h

/-- C7 witness: the invariants instantiated on a concrete detection. -/
theorem detect_grid_invariants_witness :
    detect_grid (uniformImg 24 24 0 0 0) 2 50 = some ⟨6, 6, 4, 4, 9 / 10⟩ ∧
    ((⟨6, 6, 4, 4, 9 / 10⟩ : GridInfo).grid_cols =
        (uniformImg 24 24 0 0 0).width / (⟨6, 6, 4, 4, 9 / 10⟩ : GridInfo).cell_width ∧
      (⟨6, 6, 4, 4, 9 / 10⟩ : GridInfo).grid_rows =
        (uniformImg 24 24 0 0 0).height / (⟨6, 6, 4, 4, 9 / 10⟩ : GridInfo).cell_height ∧
      (⟨6, 6, 4, 4, 9 / 10⟩ : GridInfo).confidence = 9 / 10) :=
  ⟨by decide, detect_grid_invariants (uniformImg 24 24 0 0 0) 2 50 _ (by decide)⟩

/-- C10: every successful `find_periodic_peak` result is at least 2 (the
prominence tier returns an interior local-maximum index plus one, the other
tiers return at least 6), so the integer divisions in `detect_grid` never
divide by zero and the `GridInfo` cell sizes are positive. -/
theorem find_periodic_peak_safety :
    (∀ (line : List ℚ) (ms p : ℕ), find_periodic_peak line ms = some p → 2 ≤ p) ∧
    (∀ (img : RGBImage) (minc maxc : ℕ) (g : GridInfo), detect_grid img minc maxc = some g →
      g.cell_width ≠ 0 ∧ g.cell_height ≠ 0 ∧ 1 ≤ g.cell_width ∧ 1 ≤ g.cell_height) := by
  constructor
  · intro line ms p h
    exact (find_periodic_peak_bounds line ms p h).1
  · intro img minc maxc g h
    have hb := detect_grid_cell_bounds img minc maxc g h
    exact ⟨by omega, by omega, by omega, by omega⟩

/-! Behaviour on uniform images: the autocorrelation tail of a constant
scanline is strictly non-increasing, so tiers 1 and 2 find nothing and the
curvature tier returns 6. -/

theorem getD_replicate {α : Type} (m i : ℕ) (c d : α) (h : i < m) :
    (List.replicate m c).getD i d = c := by
  induction m generalizing i with
  | zero => omega
  | succ n ih =>
    cases i with
    | zero => rfl
    | succ j => exact ih j (by omega)

theorem corrAt_replicate (m : ℕ) (c : ℚ) (off : ℤ) (h0 : 0 ≤ off) (hm : off ≤ m) :
    corrAt (List.replicate m c) off = ((m : ℚ) - (off : ℚ)) * c ^ 2 := by
  unfold corrAt
  rw [List.length_replicate]
  have hterm : ∀ i ∈ Finset.range m,
      (List.replicate m c).getD i 0 * getQ (List.replicate m c) ((i : ℤ) + off) =
      if i < m - off.toNat then c * c else 0 := by
    intro i hi
    have him : i < m := Finset.mem_range.mp hi
    rw [getD_replicate m i c 0 him, getQ, List.length_replicate]
    by_cases hc : i < m - off.toNat
    · rw [if_pos hc, if_pos (by omega), getD_replicate m _ c 0 (by omega)]
    · rw [if_neg hc, if_neg (by omega), mul_zero]
  rw [Finset.sum_congr rfl hterm]
  have hfilter : Finset.filter (fun i => i < m - off.toNat) (Finset.range m) =
      Finset.range (m - off.toNat) := by
    ext i
    simp only [Finset.mem_filter, Finset.mem_range]
    omega
  rw [← Finset.sum_filter, hfilter, Finset.sum_const, Finset.card_range, nsmul_eq_mul]
  have hc1 : ((m - off.toNat : ℕ) : ℚ) = (m : ℚ) - (off : ℚ) := by
    have h2 : off.toNat ≤ m := by omega
    have h3 : ((off.toNat : ℕ) : ℚ) = (off : ℚ) := by
      exact_mod_cast congrArg (fun z : ℤ => (z : ℚ)) (Int.toNat_of_nonneg h0)
    rw [Nat.cast_sub h2, h3]
  rw [hc1]
  ring

theorem correlateSame_replicate_24 (c : ℚ) :
    (correlateSame (List.replicate 24 c)).drop 12 =
      [24 * c ^ 2, 23 * c ^ 2, 22 * c ^ 2, 21 * c ^ 2, 20 * c ^ 2, 19 * c ^ 2,
       18 * c ^ 2, 17 * c ^ 2, 16 * c ^ 2, 15 * c ^ 2, 14 * c ^ 2, 13 * c ^ 2] := by
  have h24 : List.range 24 =
      [0, 1, 2, 3, 4, 5, 6, 7, 8, 9, 10, 11, 12, 13, 14, 15, 16, 17, 18, 19, 20, 21, 22, 23] :=
    rfl
  rw [correlateSame, List.length_replicate, h24]
  simp only [List.map_cons, List.map_nil, List.drop_succ_cons, List.drop_zero,
    List.cons.injEq, and_true]
  and_intros <;> (rw [corrAt_replicate] <;> push_cast) <;> norm_num

theorem localMaximaAux_nonincreasing (x : List ℚ) (iMax : ℕ)
    (hx : ∀ t, t + 1 ≤ iMax → x.getD (t + 1) 0 ≤ x.getD t 0) :
    ∀ fuel i, 1 ≤ i → localMaximaAux x iMax fuel i = [] := by
  intro fuel
  induction fuel with
  | zero => intro i _; rfl
  | succ n ih =>
    intro i hi
    simp only [localMaximaAux]
    by_cases h1 : i < iMax
    · rw [if_pos h1]
      have hnl : ¬ x.getD (i - 1) 0 < x.getD i 0 := by
        have h2 := hx (i - 1) (by omega)
        have h3 : i - 1 + 1 = i := by omega
        rw [h3] at h2
        exact not_lt.mpr h2
      rw [if_neg hnl]
      exact ih (i + 1) (by omega)
    · rw [if_neg h1]

theorem find_peaks_prom_dist_of_no_maxima (x : List ℚ) (h : localMaxima x = []) :
    find_peaks_prom_dist x = [] := by
  simp only [find_peaks_prom_dist, h]
  rfl

/-- The three tiers of `find_periodic_peak` on the autocorrelation tail of
a constant 24-sample scanline: tiers 1 and 2 see a non-increasing segment
and fail, the curvature tier returns 6. -/
theorem find_periodic_peak_const_line (c : ℚ) :
    find_periodic_peak ((correlateSame (List.replicate 24 c)).drop 12) 50 = some 6 := by
  rw [correlateSame_replicate_24 c]
  set xs : List ℚ := [23 * c ^ 2, 22 * c ^ 2, 21 * c ^ 2, 20 * c ^ 2, 19 * c ^ 2,
    18 * c ^ 2, 17 * c ^ 2, 16 * c ^ 2, 15 * c ^ 2, 14 * c ^ 2, 13 * c ^ 2] with hxs
  have hq : (0 : ℚ) ≤ c ^ 2 := sq_nonneg c
  have hmono : ∀ t, t + 1 ≤ 10 → xs.getD (t + 1) 0 ≤ xs.getD t 0 := by
    intro t ht
    have ht9 : t ≤ 9 := by omega
    interval_cases t <;> simp [hxs] <;> nlinarith [hq]
  have hlm : localMaxima xs = [] :=
    localMaximaAux_nonincreasing xs 10 hmono 11 1 le_rfl
  have hfp : find_peaks_prom_dist xs = [] := find_peaks_prom_dist_of_no_maxima xs hlm
  have hfind : (List.range' 5 (11 - 1 - 5)).find? (fun i =>
      decide (xs.getD (i - 1) 0 < xs.getD i 0 ∧ xs.getD (i + 1) 0 < xs.getD i 0)) = none := by
    rw [List.find?_eq_none]
    intro i hi
    have hib := List.mem_range'.mp hi
    simp only [decide_eq_true_eq]
    rintro ⟨h1, -⟩
    have h3 := hmono (i - 1) (by omega)
    have h4 : i - 1 + 1 = i := by omega
    rw [h4] at h3
    exact absurd h1 (not_lt.mpr h3)
  have hd1 : npdiff xs = List.replicate 10 (-(c ^ 2)) := by
    simp only [hxs, npdiff, List.tail_cons, List.zipWith_cons_cons, List.zipWith_nil_right,
      List.replicate, List.cons.injEq, and_true]
    and_intros <;> ring
  have hd2 : npdiff (List.replicate 10 (-(c ^ 2))) = List.replicate 9 0 := by
    simp only [npdiff, List.replicate, List.tail_cons, List.zipWith_cons_cons,
      List.zipWith_nil_right, List.cons.injEq, and_true]
    and_intros <;> ring
  have hlen : xs.length = 11 := rfl
  have hdrop : (24 * c ^ 2 :: xs).drop 1 = xs := rfl
  have htake : xs.take 11 = xs := by
    conv_lhs => rw [← hlen]
    simp
  simp only [find_periodic_peak, hdrop, hlen]
  rw [show (min 50 11 : ℕ) = 11 from rfl,
    if_neg (by norm_num : ¬ (11 : ℕ) < 3), htake, hfp, hfind, hd1, hd2]
  decide

theorem correlateSame_replicate_8 (c : ℚ) :
    (correlateSame (List.replicate 8 c)).drop 4 =
      [8 * c ^ 2, 7 * c ^ 2, 6 * c ^ 2, 5 * c ^ 2] := by
  have h8 : List.range 8 = [0, 1, 2, 3, 4, 5, 6, 7] := rfl
  rw [correlateSame, List.length_replicate, h8]
  simp only [List.map_cons, List.map_nil, List.drop_succ_cons, List.drop_zero,
    List.cons.injEq, and_true]
  and_intros <;> (rw [corrAt_replicate] <;> push_cast) <;> norm_num

/-- On a constant 8-sample scanline the searched segment has only three
lags: no tier applies (the curvature tier needs more than 10), so the axis
reports no period. -/
theorem find_periodic_peak_const_line_8 (c : ℚ) :
    find_periodic_peak ((correlateSame (List.replicate 8 c)).drop 4) 50 = none := by
  rw [correlateSame_replicate_8 c]
  set xs : List ℚ := [7 * c ^ 2, 6 * c ^ 2, 5 * c ^ 2] with hxs
  have hq : (0 : ℚ) ≤ c ^ 2 := sq_nonneg c
  have hmono : ∀ t, t + 1 ≤ 2 → xs.getD (t + 1) 0 ≤ xs.getD t 0 := by
    intro t ht
    have ht1 : t ≤ 1 := by omega
    interval_cases t <;> simp [hxs] <;> nlinarith [hq]
  have hlm : localMaxima xs = [] := localMaximaAux_nonincreasing xs 2 hmono 3 1 le_rfl
  have hfp : find_peaks_prom_dist xs = [] := find_peaks_prom_dist_of_no_maxima xs hlm
  have hlen : xs.length = 3 := rfl
  have hdrop : (8 * c ^ 2 :: xs).drop 1 = xs := rfl
  have htake : xs.take 3 = xs := by
    conv_lhs => rw [← hlen]
    simp
  simp only [find_periodic_peak, hdrop, hlen]
  rw [show (min 50 3 : ℕ) = 3 from rfl, if_neg (by norm_num : ¬ (3 : ℕ) < 3), htake, hfp]
  rfl

/-- C1 (amended): a uniform image does not generally produce
`NotDetected`.  For every color, the 24×24 uniform image is detected as a
6×6 grid: the autocorrelation tail of a constant scanline is strictly
non-increasing, so the prominence and simple-local-maximum tiers find
nothing, and the curvature fallback returns lag 6 on both axes.  Uniform
images yield `none` only when the searched segment is too short for every
tier, e.g. on the 8×8 uniform image. -/
theorem detect_grid_uniform_behaviour (r g b minc : ℕ) :
    detect_grid (uniformImg 24 24 r g b) minc 50 = some ⟨6, 6, 4, 4, 9 / 10⟩ ∧
    detect_grid (uniformImg 8 8 r g b) minc 50 = none := by
  constructor
  · simp only [detect_grid, detect_grid_autocorrelation, uniformImg, grayAt]
    norm_num
    have hlen2 : (correlateSame (List.replicate 24 (((r : ℚ) + g + b) / 3))).length = 24 := by
      simp [correlateSame]
    rw [hlen2, show (24 / 2 : ℕ) = 12 from rfl, find_periodic_peak_const_line]
  · simp only [detect_grid, detect_grid_autocorrelation, uniformImg, grayAt]
    norm_num
    have hlen2 : (correlateSame (List.replicate 8 (((r : ℚ) + g + b) / 3))).length = 8 := by
      simp [correlateSame]
    rw [hlen2, show (8 / 2 : ℕ) = 4 from rfl, find_periodic_peak_const_line_8]

/-- C10 witness: both halves instantiated on concrete successful runs. -/
theorem find_periodic_peak_safety_witness :
    find_periodic_peak [0, 0, 0, (9 : ℚ), 0, 0, 9, 0, 0, 9, 0, 0] 50 = some 3 ∧ 2 ≤ 3 ∧
    detect_grid (uniformImg 24 24 7 99 200) 2 50 = some ⟨6, 6, 4, 4, 9 / 10⟩ ∧
    ((⟨6, 6, 4, 4, 9 / 10⟩ : GridInfo).cell_width ≠ 0 ∧
      (⟨6, 6, 4, 4, 9 / 10⟩ : GridInfo).cell_height ≠ 0 ∧
      1 ≤ (⟨6, 6, 4, 4, 9 / 10⟩ : GridInfo).cell_width ∧
      1 ≤ (⟨6, 6, 4, 4, 9 / 10⟩ : GridInfo).cell_height) :=
  ⟨by decide,
   find_periodic_peak_safety.1 [0, 0, 0, (9 : ℚ), 0, 0, 9, 0, 0, 9, 0, 0] 50 3 (by decide),
   by decide,
   find_periodic_peak_safety.2 (uniformImg 24 24 7 99 200) 2 50 _ (by decide)⟩

/-! ## PixelSampler (src/backend/services/pixel_extraction.py)

`extract_pixels_from_grid` samples each logical cell: the cell's pixel
bounding box is clipped to the image, shrunk by an `int(cell * 0.2)` margin
on each side (at least a 1×1 window anchored at the shrunk start), and the
per-channel `np.median` of the window is truncated to an integer.  For
every cell size `n`, `int(n * 0.2)` under float64 equals `n / 5` rounded
down, which is how the margin is written here.  `np.median` of an
even-sized sample is the arithmetic mean of the two middle elements of the
sorted data, and Python's `int(...)` truncates toward zero. -/

structure PyGridInfo where
  cell_width : ℕ
  cell_height : ℕ
  grid_cols : ℕ
  grid_rows : ℕ
deriving DecidableEq

structure PixelGridResult where
  width : ℕ
  height : ℕ
  grid : List (List (ℕ × ℕ × ℕ))
deriving DecidableEq

/-- `np.median` of a rational sample: middle of the sorted data, or the
mean of the two middle elements when the size is even. -/
def npMedianQ (l : List ℚ) : ℚ :=
  let s := l.insertionSort (· ≤ ·)
  if l.length % 2 = 1 then s.getD (l.length / 2) 0
  else (s.getD (l.length / 2 - 1) 0 + s.getD (l.length / 2) 0) / 2

/-- Python `int(...)` on a float: truncation toward zero. -/
def pyTruncInt (q : ℚ) : ℤ :=
  if 0 ≤ q then ⌊q⌋ else -⌊-q⌋

/-- The sampled window of cell `(col, row)`, row-major, exactly as the
numpy slicing `img_array[iys:iye, ixs:ixe]` enumerates it (slices clamp to
the array bounds). -/
def cellWindow (img : RGBImage) (gi : PyGridInfo) (row col : ℕ) : List (ℕ × ℕ × ℕ) :=
  let xs := col * gi.cell_width
  let ys := row * gi.cell_height
  let xe := min (xs + gi.cell_width) img.width
  let ye := min (ys + gi.cell_height) img.height
  let mx := gi.cell_width / 5
  let my := gi.cell_height / 5
  let ixs := xs + mx
  let iys := ys + my
  let ixe := max (ixs + 1) (xe - mx)
  let iye := max (iys + 1) (ye - my)
  ((List.range' iys (min iye img.height - iys)).map (fun y =>
    (List.range' ixs (min ixe img.width - ixs)).map (fun x => img.pix y x))).flatten

/-- `extract_pixels_from_grid` from pixel_extraction.py. -/
def extract_pixels_from_grid (img : RGBImage) (gi : PyGridInfo) : PixelGridResult :=
  ⟨gi.grid_cols, gi.grid_rows,
    (List.range gi.grid_rows).map (fun row =>
      (List.range gi.grid_cols).map (fun col =>
        let cell := cellWindow img gi row col
        if cell.length ≠ 0 then
          ((pyTruncInt (npMedianQ (cell.map (fun p => (p.1 : ℚ))))).toNat,
           (pyTruncInt (npMedianQ (cell.map (fun p => (p.2.1 : ℚ))))).toNat,
           (pyTruncInt (npMedianQ (cell.map (fun p => (p.2.2 : ℚ))))).toNat)
        else (0, 0, 0)))⟩

/-! Specification-side sampling, written from the spec's words: the window
is the cell's bounding box clipped to the image and shrunk by a
20%-of-cell margin per side (minimum 1×1), and the emitted color is the
per-channel median of the window, an even-sized window taking the integer
part of the mean of its two middle values (the amended midpoint rule). -/

/-- The spec's sampling window as a set of pixel coordinates `(y, x)`. -/
def specWindow (img : RGBImage) (gi : PyGridInfo) (row col : ℕ) : Finset (ℕ × ℕ) :=
  Finset.Ico (row * gi.cell_height + gi.cell_height / 5)
      (min (max (row * gi.cell_height + gi.cell_height / 5 + 1)
        (min ((row + 1) * gi.cell_height) img.height - gi.cell_height / 5)) img.height) ×ˢ
    Finset.Ico (col * gi.cell_width + gi.cell_width / 5)
      (min (max (col * gi.cell_width + gi.cell_width / 5 + 1)
        (min ((col + 1) * gi.cell_width) img.width - gi.cell_width / 5)) img.width)

/-- Median of a multiset of channel values: middle of the sorted values,
an even-sized multiset taking the integer part of the mean of the two
middle values. -/
def specChannelMedian (m : Multiset ℕ) : ℕ :=
  let s := m.sort (· ≤ ·)
  if m.card % 2 = 1 then s.getD (m.card / 2) 0
  else (s.getD (m.card / 2 - 1) 0 + s.getD (m.card / 2) 0) / 2

def specCellColor (img : RGBImage) (gi : PyGridInfo) (row col : ℕ) : ℕ × ℕ × ℕ :=
  let w := (specWindow img gi row col).val.map (fun yx => img.pix yx.1 yx.2)
  (specChannelMedian (w.map (fun p => p.1)),
   specChannelMedian (w.map (fun p => p.2.1)),
   specChannelMedian (w.map (fun p => p.2.2)))

/-- The midpoint rule asserted by the claim (lower of the two middle
elements for an even-sized window); the code does not implement it. -/
def specChannelMedianLower (m : Multiset ℕ) : ℕ :=
  let s := m.sort (· ≤ ·)
  if m.card % 2 = 1 then s.getD (m.card / 2) 0
  else s.getD (m.card / 2 - 1) 0

def specCellColorLower (img : RGBImage) (gi : PyGridInfo) (row col : ℕ) : ℕ × ℕ × ℕ :=
  let w := (specWindow img gi row col).val.map (fun yx => img.pix yx.1 yx.2)
  (specChannelMedianLower (w.map (fun p => p.1)),
   specChannelMedianLower (w.map (fun p => p.2.1)),
   specChannelMedianLower (w.map (fun p => p.2.2)))

/-- A 2×1 image: one black pixel, one white pixel. -/
def blackWhiteImg : RGBImage :=
  ⟨2, 1, fun _ x => if x = 0 then (0, 0, 0) else (255, 255, 255)⟩

/-- C5 counterexample: a single 2×1 cell whose window holds one black and
one white pixel.  `np.median` averages the two middle values and `int`
truncates, so the code emits `(127,127,127)`; the claimed lower-middle
rule would emit `(0,0,0)`. -/
theorem extract_pixels_even_median_counterexample :
    extract_pixels_from_grid blackWhiteImg ⟨2, 1, 1, 1⟩ =
      ⟨1, 1, [[(127, 127, 127)]]⟩ ∧
    specCellColorLower blackWhiteImg ⟨2, 1, 1, 1⟩ 0 0 = (0, 0, 0) ∧
    (127, 127, 127) ≠ ((0, 0, 0) : ℕ × ℕ × ℕ) := by
  refine ⟨by decide, by decide, by decide⟩

/-! Refinement of the per-cell sampling against the spec's description. -/

theorem getD_map_range {α : Type} (n i : ℕ) (f : ℕ → α) (d : α) (h : i < n) :
    ((List.range n).map f).getD i d = f i := by
  rw [List.getD_eq_getElem?_getD, List.getElem?_map, List.getElem?_range h]
  rfl

theorem map_product_eq {α : Type} (f : ℕ → ℕ → α) (r1 r2 : List ℕ) :
    (r1.map (fun y => r2.map (fun x => f y x))).flatten =
      List.map (fun yx : ℕ × ℕ => f yx.1 yx.2) (r1 ×ˢ r2) := by
  induction r1 with
  | nil => rfl
  | cons y ys ih =>
    simp only [List.map_cons, List.flatten_cons, SProd.sprod, List.product,
      List.flatMap_cons, List.map_append, List.map_map] at ih ⊢
    rw [ih]
    congr 1

theorem cellWindow_coe (img : RGBImage) (gi : PyGridInfo) (row col : ℕ) :
    (cellWindow img gi row col : Multiset (ℕ × ℕ × ℕ)) =
      Multiset.map (fun yx => img.pix yx.1 yx.2) (specWindow img gi row col).val := by
  have hval : ∀ a b : ℕ,
      (Finset.Ico a b).val = ((List.range' a (b - a) : List ℕ) : Multiset ℕ) := by
    intro a b
    rw [Nat.Ico_eq_range']
  have hb : (row + 1) * gi.cell_height = row * gi.cell_height + gi.cell_height :=
    Nat.succ_mul _ _
  have hb2 : (col + 1) * gi.cell_width = col * gi.cell_width + gi.cell_width :=
    Nat.succ_mul _ _
  rw [specWindow, hb, hb2, Finset.product_val, hval, hval, Multiset.coe_product,
    Multiset.map_coe]
  refine congrArg _ ?_
  simp only [cellWindow]
  exact map_product_eq (fun y x => img.pix y x) _ _

theorem trunc_cast_eq (a : ℕ) : (pyTruncInt ((a : ℚ))).toNat = a := by
  rw [pyTruncInt, if_pos (by positivity), Int.floor_natCast, Int.toNat_natCast]

theorem trunc_avg_eq (a b : ℕ) : (pyTruncInt (((a : ℚ) + b) / 2)).toNat = (a + b) / 2 := by
  rw [pyTruncInt, if_pos (by positivity)]
  have h1 : ((a : ℚ) + b) = ((a + b : ℕ) : ℚ) := by push_cast; ring
  have h2 : ((2 : ℚ)) = ((2 : ℕ) : ℚ) := by norm_num
  rw [h1, h2, Int.floor_toNat, Nat.floor_div_eq_div]

theorem median_cast_eq (l : List ℕ) (m : Multiset ℕ) (hm : (l : Multiset ℕ) = m) :
    (pyTruncInt (npMedianQ (l.map (fun n : ℕ => (n : ℚ))))).toNat = specChannelMedian m := by
  subst hm
  have hperm : List.Perm (Multiset.sort (· ≤ ·) (l : Multiset ℕ)) l :=
    Multiset.coe_eq_coe.mp (Multiset.sort_eq _ _)
  have hsorted : Multiset.sort (· ≤ ·) (l : Multiset ℕ) = l.insertionSort (· ≤ ·) :=
    List.eq_of_perm_of_sorted (hperm.trans (List.perm_insertionSort _ l).symm)
      (Multiset.sort_sorted _ _) (List.sorted_insertionSort _ l)
  have hcast : (l.map (fun n : ℕ => (n : ℚ))).insertionSort (· ≤ ·) =
      (l.insertionSort (· ≤ ·)).map (fun n : ℕ => (n : ℚ)) :=
    List.eq_of_perm_of_sorted
      ((List.perm_insertionSort (· ≤ ·) (l.map (fun n : ℕ => (n : ℚ)))).trans
        (((List.perm_insertionSort (· ≤ ·) l).symm).map (fun n : ℕ => (n : ℚ))))
      (List.sorted_insertionSort (· ≤ ·) (l.map (fun n : ℕ => (n : ℚ))))
      (by
        refine List.Pairwise.map (fun n : ℕ => (n : ℚ)) ?_ (List.sorted_insertionSort (· ≤ ·) l)
        intro a b hab
        show ((a : ℚ)) ≤ (b : ℚ)
        exact_mod_cast hab)
  have hgetD : ∀ i : ℕ, ((l.insertionSort (· ≤ ·)).map (fun n : ℕ => (n : ℚ))).getD i 0 =
      (((l.insertionSort (· ≤ ·)).getD i 0 : ℕ) : ℚ) := by
    intro i
    have h0 : ((0 : ℚ)) = ((fun n : ℕ => (n : ℚ)) 0) := by norm_num
    rw [h0, List.getD_map]
  rw [npMedianQ, specChannelMedian, hcast, hsorted, Multiset.coe_card, List.length_map]
  by_cases hpar : l.length % 2 = 1
  · rw [if_pos hpar, if_pos hpar, hgetD]
    exact trunc_cast_eq _
  · rw [if_neg hpar, if_neg hpar, hgetD, hgetD]
    exact trunc_avg_eq _ _

theorem specChannelMedian_replicate (k c : ℕ) (hk : k ≠ 0) :
    specChannelMedian (Multiset.replicate k c) = c := by
  have hs : Multiset.sort (· ≤ ·) (Multiset.replicate k c) = List.replicate k c := by
    refine List.eq_of_perm_of_sorted ?_ (Multiset.sort_sorted _ _) ?_
    · rw [← Multiset.coe_eq_coe, Multiset.sort_eq, Multiset.coe_replicate]
    · exact List.pairwise_replicate.mpr (Or.inr le_rfl)
  rw [specChannelMedian, hs, Multiset.card_replicate]
  by_cases hpar : k % 2 = 1
  · rw [if_pos hpar, getD_replicate _ _ _ _ (by omega)]
  · rw [if_neg hpar, getD_replicate _ _ _ _ (by omega), getD_replicate _ _ _ _ (by omega)]
    omega

/-- C5 (amended): for every in-range cell, the emitted color is the
per-channel median over the spec's window (bounding box clipped to the
image, shrunk by a 20%-of-cell margin per side, at least 1×1), where an
even-sized window takes the integer part of the mean of the two middle
values — not the lower of the two middle values; in particular a window
holding a single repeated color yields exactly that color. -/
theorem extract_pixels_from_grid_cell (img : RGBImage) (gi : PyGridInfo) (row col : ℕ)
    (hr : row < gi.grid_rows) (hc : col < gi.grid_cols) :
    ((extract_pixels_from_grid img gi).grid.getD row []).getD col (0, 0, 0) =
      specCellColor img gi row col ∧
    ∀ v : ℕ × ℕ × ℕ, (specWindow img gi row col).Nonempty →
      (∀ yx ∈ specWindow img gi row col, img.pix yx.1 yx.2 = v) →
      ((extract_pixels_from_grid img gi).grid.getD row []).getD col (0, 0, 0) = v := by
  have hch : ∀ chan : ℕ × ℕ × ℕ → ℕ,
      (pyTruncInt (npMedianQ ((cellWindow img gi row col).map
        (fun p => ((chan p : ℕ) : ℚ))))).toNat =
      specChannelMedian (((specWindow img gi row col).val.map
        (fun yx => img.pix yx.1 yx.2)).map chan) := by
    intro chan
    have heq : (((cellWindow img gi row col).map chan : List ℕ) : Multiset ℕ) =
        ((specWindow img gi row col).val.map (fun yx => img.pix yx.1 yx.2)).map chan := by
      rw [← Multiset.map_coe, cellWindow_coe]
    have h := median_cast_eq ((cellWindow img gi row col).map chan) _ heq
    rw [List.map_map] at h
    exact h
  have hcellv : ((extract_pixels_from_grid img gi).grid.getD row []).getD col (0, 0, 0) =
      (if (cellWindow img gi row col).length ≠ 0 then
        ((pyTruncInt (npMedianQ ((cellWindow img gi row col).map
            (fun p => (p.1 : ℚ))))).toNat,
         (pyTruncInt (npMedianQ ((cellWindow img gi row col).map
            (fun p => (p.2.1 : ℚ))))).toNat,
         (pyTruncInt (npMedianQ ((cellWindow img gi row col).map
            (fun p => (p.2.2 : ℚ))))).toNat)
      else (0, 0, 0)) := by
    simp only [extract_pixels_from_grid]
    rw [getD_map_range _ _ _ _ hr, getD_map_range _ _ _ _ hc]
  have hif : (if (cellWindow img gi row col).length ≠ 0 then
        ((pyTruncInt (npMedianQ ((cellWindow img gi row col).map
            (fun p => (p.1 : ℚ))))).toNat,
         (pyTruncInt (npMedianQ ((cellWindow img gi row col).map
            (fun p => (p.2.1 : ℚ))))).toNat,
         (pyTruncInt (npMedianQ ((cellWindow img gi row col).map
            (fun p => (p.2.2 : ℚ))))).toNat)
      else (0, 0, 0)) =
      ((pyTruncInt (npMedianQ ((cellWindow img gi row col).map
          (fun p => (p.1 : ℚ))))).toNat,
       (pyTruncInt (npMedianQ ((cellWindow img gi row col).map
          (fun p => (p.2.1 : ℚ))))).toNat,
       (pyTruncInt (npMedianQ ((cellWindow img gi row col).map
          (fun p => (p.2.2 : ℚ))))).toNat) := by
    by_cases hemp : (cellWindow img gi row col).length = 0
    · rw [if_neg (fun hcon => hcon hemp), List.length_eq_zero.mp hemp]
      rfl
    · rw [if_pos hemp]
  have hmain : ((extract_pixels_from_grid img gi).grid.getD row []).getD col (0, 0, 0) =
      specCellColor img gi row col := by
    rw [hcellv, hif, specCellColor]
    rw [show (fun p : ℕ × ℕ × ℕ => (p.1 : ℚ)) = (fun p : ℕ × ℕ × ℕ => ((p.1 : ℕ) : ℚ))
      from rfl]
    rw [show (fun p : ℕ × ℕ × ℕ => (p.2.1 : ℚ)) = (fun p : ℕ × ℕ × ℕ => ((p.2.1 : ℕ) : ℚ))
      from rfl]
    rw [show (fun p : ℕ × ℕ × ℕ => (p.2.2 : ℚ)) = (fun p : ℕ × ℕ × ℕ => ((p.2.2 : ℕ) : ℚ))
      from rfl]
    rw [hch (fun p => p.1), hch (fun p => p.2.1), hch (fun p => p.2.2)]
  refine ⟨hmain, ?_⟩
  intro v hne huni
  have hwv : (specWindow img gi row col).val.map (fun yx => img.pix yx.1 yx.2) =
      Multiset.replicate (Multiset.card (specWindow img gi row col).val) v := by
    rw [Multiset.map_congr rfl (fun yx hyx => huni yx (Finset.mem_def.mpr hyx))]
    exact Multiset.map_const' _ v
  have hcard : Multiset.card (specWindow img gi row col).val ≠ 0 := by
    have := Finset.Nonempty.card_pos hne
    rw [Finset.card_def] at this
    omega
  rw [hmain, specCellColor]
  show (specChannelMedian _, specChannelMedian _, specChannelMedian _) = v
  rw [hwv, Multiset.map_replicate, Multiset.map_replicate, Multiset.map_replicate,
    specChannelMedian_replicate _ _ hcard, specChannelMedian_replicate _ _ hcard,
    specChannelMedian_replicate _ _ hcard]

/-- C5 witness: a uniform 4×4 image cut into 2×2 cells; the first cell
matches the spec-side sampling and reproduces the uniform color exactly. -/
theorem extract_pixels_from_grid_cell_witness :
    ((extract_pixels_from_grid (uniformImg 4 4 9 8 7) ⟨2, 2, 2, 2⟩).grid.getD 0 []).getD 0
        (0, 0, 0) =
      specCellColor (uniformImg 4 4 9 8 7) ⟨2, 2, 2, 2⟩ 0 0 ∧
    ((extract_pixels_from_grid (uniformImg 4 4 9 8 7) ⟨2, 2, 2, 2⟩).grid.getD 0 []).getD 0
        (0, 0, 0) = (9, 8, 7) :=
  ⟨(extract_pixels_from_grid_cell (uniformImg 4 4 9 8 7) ⟨2, 2, 2, 2⟩ 0 0
      (by decide) (by decide)).1,
   (extract_pixels_from_grid_cell (uniformImg 4 4 9 8 7) ⟨2, 2, 2, 2⟩ 0 0
      (by decide) (by decide)).2 (9, 8, 7) (by decide) (fun yx _ => rfl)⟩

end RatKernelEval

/-! ## ColorSpace (real-valued part) and ColorMatcher
(src/backend/services/color_utils.py, src/backend/routers/colors.py)

The colorimetric chain uses irrational powers, so it is embedded over `ℝ`.
`match_colors` additionally imports `is_neutral_color` and
`color_saturation` from services.color_utils, but these two functions are
absent from the source tree; they are modelled from the spec below. -/

noncomputable def gamma_correct (v : ℝ) : ℝ :=
  if v > 0.04045 then ((v + 0.055) / 1.055) ^ (2.4 : ℝ) else v / 12.92

noncomputable def rgb_to_xyz (r g b : ℤ) : ℝ × ℝ × ℝ :=
  let r_linear := gamma_correct ((r : ℝ) / 255)
  let g_linear := gamma_correct ((g : ℝ) / 255)
  let b_linear := gamma_correct ((b : ℝ) / 255)
  (r_linear * 0.4124564 + g_linear * 0.3575761 + b_linear * 0.1804375,
   r_linear * 0.2126729 + g_linear * 0.7151522 + b_linear * 0.0721750,
   r_linear * 0.0193339 + g_linear * 0.1191920 + b_linear * 0.9503041)

noncomputable def fLab (t : ℝ) : ℝ :=
  if t > ((6 : ℝ) / 29) ^ (3 : ℕ) then t ^ ((1 : ℝ) / 3)
  else t / (3 * ((6 : ℝ) / 29) ^ (2 : ℕ)) + 4 / 29

noncomputable def xyz_to_lab (x y z : ℝ) : ℝ × ℝ × ℝ :=
  let fx := fLab (x / 0.95047)
  let fy := fLab (y / 1.00000)
  let fz := fLab (z / 1.08883)
  (116 * fy - 16, 500 * (fx - fy), 200 * (fy - fz))

noncomputable def rgb_to_lab (r g b : ℤ) : ℝ × ℝ × ℝ :=
  xyz_to_lab (rgb_to_xyz r g b).1 (rgb_to_xyz r g b).2.1 (rgb_to_xyz r g b).2.2

noncomputable def lab_distance (c1 c2 : ℝ × ℝ × ℝ) : ℝ :=
  Real.sqrt ((c1.1 - c2.1) ^ 2 + (c1.2.1 - c2.2.1) ^ 2 + (c1.2.2 - c2.2.2) ^ 2)

noncomputable def rgb_distance (c1 c2 : ℤ × ℤ × ℤ) : ℝ :=
  Real.sqrt (((c1.1 - c2.1 : ℤ) : ℝ) ^ 2 + ((c1.2.1 - c2.2.1 : ℤ) : ℝ) ^ 2 +
    ((c1.2.2 - c2.2.2 : ℤ) : ℝ) ^ 2)

/-- Modelled from the spec: `is_neutral_color` is imported by
`match_colors` from services.color_utils but missing from the source tree.
Per the spec it classifies a color as near-gray when the max-minus-min
channel spread is below a threshold; the threshold is chosen as 30. -/
def is_neutral_color (r g b : ℤ) : Bool :=
  decide (max r (max g b) - min r (min g b) < 30)

/-- Modelled from the spec: `color_saturation` is imported by
`match_colors` from services.color_utils but missing from the source tree.
Per the spec it is a chroma measure that is 0 for gray beads and grows
with colorfulness, scaled so the penalty `saturation * 50` reaches up to
50; the channel spread normalised to `[0,1]` realises this. -/
noncomputable def color_saturation (r g b : ℤ) : ℝ :=
  ((max r (max g b) - min r (min g b) : ℤ) : ℝ) / 255

structure BeadColor where
  id : String
  hex : String
  name : String
deriving DecidableEq

structure ColorMatch where
  image_color : String
  bead_color_id : String
  bead_color_hex : String
  bead_color_name : String
  distance : ℝ

inductive MatchError where
  | noCandidates
  | invalidColor
deriving DecidableEq

/-- The inner bead loop of `match_colors`: Python starts from
`best_distance = inf`, so the first bead always becomes the running best;
this is modelled with an `Option` accumulator.  A strict `<` keeps the
earlier bead on ties. -/
noncomputable def matchLoop (method : String) (img_rgb : ℤ × ℤ × ℤ) (neutral : Bool) :
    List (BeadColor × (ℤ × ℤ × ℤ)) → Option (BeadColor × ℝ) → Option (BeadColor × ℝ)
  | [], best => best
  | (bc, brgb) :: rest, best =>
    let d0 := if method = "lab" then
        lab_distance (rgb_to_lab img_rgb.1 img_rgb.2.1 img_rgb.2.2)
          (rgb_to_lab brgb.1 brgb.2.1 brgb.2.2)
      else rgb_distance img_rgb brgb
    let d := if neutral then d0 + color_saturation brgb.1 brgb.2.1 brgb.2.2 * 50 else d0
    matchLoop method img_rgb neutral rest
      (match best with
        | none => some (bc, d)
        | some (bb, bd) => if d < bd then some (bc, d) else some (bb, bd))

/-- One query color of `match_colors`: parse the query and the bead hexes
(a parse failure anywhere aborts the whole request in the source), then
run the loop; `if best_match:` appends one result when a best exists. -/
noncomputable def matchOne (method : String) (avail : List BeadColor) (image_hex : String) :
    Except MatchError (List ColorMatch) :=
  match hex_to_rgb image_hex.toList with
  | none => .error .invalidColor
  | some irgb =>
    match avail.mapM (fun bc => (hex_to_rgb bc.hex.toList).map (fun v => (bc, v))) with
    | none => .error .invalidColor
    | some beads =>
      match matchLoop method irgb (is_neutral_color irgb.1 irgb.2.1 irgb.2.2) beads none with
      | some (bb, bd) => .ok [⟨image_hex, bb.id, bb.hex, bb.name, bd⟩]
      | none => .ok []

/-- `match_colors` from routers/colors.py: restrict the palette when
`available_colors` is non-empty, fail with `NoCandidates` when the
restriction is empty, then match each query color. -/
noncomputable def match_colors (colors : List String) (method : String)
    (available_colors : List String) (palette : List BeadColor) :
    Except MatchError (List ColorMatch) :=
  let avail := if available_colors ≠ [] then
      palette.filter (fun c => available_colors.contains c.id)
    else palette
  if avail = [] then .error .noCandidates
  else (colors.mapM (matchOne method avail)).map List.flatten

/-- C8: when `candidate_ids` is non-empty and filters the palette down to
nothing, the call fails with `NoCandidates` before any per-color matching
— for every list of query colors, including unparseable ones, and no
`ColorMatch` is produced. -/
theorem match_colors_no_candidates (colors : List String) (method : String)
    (cands : List String) (palette : List BeadColor)
    (hc : cands ≠ [])
    (hf : palette.filter (fun c => cands.contains c.id) = []) :
    match_colors colors method cands palette = .error .noCandidates := by
  simp only [match_colors, if_pos hc, hf]
  rfl

/-- C8 witness: a palette whose single id is not among the candidates. -/
theorem match_colors_no_candidates_witness :
    match_colors ["not-a-color"] "lab" ["zzz"] [⟨"a1", "#ff0000", "Red"⟩] =
      .error .noCandidates :=
  match_colors_no_candidates ["not-a-color"] "lab" ["zzz"] [⟨"a1", "#ff0000", "Red"⟩]
    (by decide) (by decide)

/-! Interval bounds for the concrete LAB computations used by the
neutral-penalty scenario: query `#202020`, bead colors `#c02020` (a
saturated red) and `#ffffff` (a neutral white). -/

theorem rpow_twelve_fifths_bounds (v a b : ℝ) (hv : 0 < v) (hb : 0 ≤ b)
    (h1 : a ^ (5 : ℕ) ≤ v ^ (12 : ℕ)) (h2 : v ^ (12 : ℕ) ≤ b ^ (5 : ℕ)) :
    a ≤ v ^ (2.4 : ℝ) ∧ v ^ (2.4 : ℝ) ≤ b := by
  have hvr : (0 : ℝ) ≤ v ^ (2.4 : ℝ) := Real.rpow_nonneg hv.le _
  have h5 : (v ^ (2.4 : ℝ)) ^ (5 : ℕ) = v ^ (12 : ℕ) := by
    rw [← Real.rpow_natCast (v ^ (2.4 : ℝ)) 5, ← Real.rpow_mul hv.le]
    rw [show ((2.4 : ℝ) * ((5 : ℕ) : ℝ)) = ((12 : ℕ) : ℝ) by norm_num, Real.rpow_natCast]
  have k1 : a ^ (5 : ℕ) ≤ (v ^ (2.4 : ℝ)) ^ (5 : ℕ) := by rw [h5]; exact h1
  have k2 : (v ^ (2.4 : ℝ)) ^ (5 : ℕ) ≤ b ^ (5 : ℕ) := by rw [h5]; exact h2
  exact ⟨le_of_pow_le_pow_left₀ (by norm_num) hvr k1,
    le_of_pow_le_pow_left₀ (by norm_num) hb k2⟩

theorem rpow_third_bounds (t a b : ℝ) (ht : 0 ≤ t) (hb : 0 ≤ b)
    (h1 : a ^ (3 : ℕ) ≤ t) (h2 : t ≤ b ^ (3 : ℕ)) :
    a ≤ t ^ ((1 : ℝ) / 3) ∧ t ^ ((1 : ℝ) / 3) ≤ b := by
  have htr : (0 : ℝ) ≤ t ^ ((1 : ℝ) / 3) := Real.rpow_nonneg ht _
  have h3 : (t ^ ((1 : ℝ) / 3)) ^ (3 : ℕ) = t := by
    rw [← Real.rpow_natCast (t ^ ((1 : ℝ) / 3)) 3, ← Real.rpow_mul ht]
    rw [show ((1 : ℝ) / 3 * ((3 : ℕ) : ℝ)) = (1 : ℝ) by norm_num, Real.rpow_one]
  have k1 : a ^ (3 : ℕ) ≤ (t ^ ((1 : ℝ) / 3)) ^ (3 : ℕ) := by rw [h3]; exact h1
  have k2 : (t ^ ((1 : ℝ) / 3)) ^ (3 : ℕ) ≤ b ^ (3 : ℕ) := by rw [h3]; exact h2
  exact ⟨le_of_pow_le_pow_left₀ (by norm_num) htr k1,
    le_of_pow_le_pow_left₀ (by norm_num) hb k2⟩

theorem gamma32_bounds :
    (0.01444 : ℝ) ≤ gamma_correct (((32 : ℤ) : ℝ) / 255) ∧
      gamma_correct (((32 : ℤ) : ℝ) / 255) ≤ 0.01445 := by
  rw [gamma_correct, if_pos (by norm_num : (((32 : ℤ) : ℝ) / 255) > 0.04045)]
  rw [show ((((32 : ℤ) : ℝ) / 255) + 0.055) / 1.055 = ((1841 : ℝ) / 10761) by norm_num]
  exact rpow_twelve_fifths_bounds _ _ _ (by norm_num) (by norm_num)
    (by norm_num) (by norm_num)

theorem gamma192_bounds :
    (0.52711 : ℝ) ≤ gamma_correct (((192 : ℤ) : ℝ) / 255) ∧
      gamma_correct (((192 : ℤ) : ℝ) / 255) ≤ 0.52712 := by
  rw [gamma_correct, if_pos (by norm_num : (((192 : ℤ) : ℝ) / 255) > 0.04045)]
  rw [show ((((192 : ℤ) : ℝ) / 255) + 0.055) / 1.055 = ((2747 : ℝ) / 3587) by norm_num]
  exact rpow_twelve_fifths_bounds _ _ _ (by norm_num) (by norm_num)
    (by norm_num) (by norm_num)

theorem gamma255_eq : gamma_correct (((255 : ℤ) : ℝ) / 255) = 1 := by
  rw [gamma_correct, if_pos (by norm_num : (((255 : ℤ) : ℝ) / 255) > 0.04045)]
  rw [show ((((255 : ℤ) : ℝ) / 255) + 0.055) / 1.055 = (1 : ℝ) by norm_num, Real.one_rpow]

/-- Interval bound for `fLab` on the cube-root branch: when `t` is boxed
above the branch threshold, cube bounds on the box give bounds on `fLab t`. -/
theorem fLab_in (t lo hi a b : ℝ) (h1 : lo ≤ t) (h2 : t ≤ hi)
    (hd : ((6 : ℝ) / 29) ^ (3 : ℕ) < lo) (hb : 0 ≤ b)
    (ha3 : a ^ (3 : ℕ) ≤ lo) (hb3 : hi ≤ b ^ (3 : ℕ)) :
    a ≤ fLab t ∧ fLab t ≤ b := by
  have h0 : (0 : ℝ) < ((6 : ℝ) / 29) ^ (3 : ℕ) := by positivity
  rw [fLab, if_pos (by linarith : t > ((6 : ℝ) / 29) ^ (3 : ℕ))]
  exact rpow_third_bounds t a b (by linarith) hb (by linarith) (by linarith)

/-- Exact-real core of the neutral-penalty scenario: the dark-red bead
`(192,32,32)` is strictly closer to the near-gray query `(32,32,32)` in LAB
than white `(255,255,255)` is, yet the gap is smaller than the saturation
penalty `160/255 * 50` that the red bead incurs. -/
theorem lab_core_bounds :
    lab_distance (rgb_to_lab 32 32 32) (rgb_to_lab 192 32 32) <
      lab_distance (rgb_to_lab 32 32 32) (rgb_to_lab 255 255 255) ∧
    lab_distance (rgb_to_lab 32 32 32) (rgb_to_lab 255 255 255) <
      lab_distance (rgb_to_lab 32 32 32) (rgb_to_lab 192 32 32) + (160 : ℝ) / 255 * 50 := by
  obtain ⟨h32lo, h32hi⟩ := gamma32_bounds
  obtain ⟨h192lo, h192hi⟩ := gamma192_bounds
  simp only [rgb_to_lab, rgb_to_xyz, xyz_to_lab, lab_distance, gamma255_eq]
  obtain ⟨l1, hl1⟩ : ∃ x, gamma_correct (((32 : ℤ) : ℝ) / 255) = x := ⟨_, rfl⟩
  obtain ⟨l2, hl2⟩ : ∃ x, gamma_correct (((192 : ℤ) : ℝ) / 255) = x := ⟨_, rfl⟩
  rw [hl1] at h32lo h32hi ⊢
  rw [hl2] at h192lo h192hi ⊢
  rw [show (l1 * 0.4124564 + l1 * 0.3575761 + l1 * 0.1804375) / 0.95047 = l1 by
        rw [div_eq_iff (by norm_num : (0.95047 : ℝ) ≠ 0)]; ring,
      show (l1 * 0.2126729 + l1 * 0.7151522 + l1 * 0.0721750) / 1.00000 = 1.0000001 * l1 by
        rw [div_eq_iff (by norm_num : (1.00000 : ℝ) ≠ 0)]; ring,
      show (l1 * 0.0193339 + l1 * 0.1191920 + l1 * 0.9503041) / 1.08883 = l1 by
        rw [div_eq_iff (by norm_num : (1.08883 : ℝ) ≠ 0)]; ring,
      show ((1 : ℝ) * 0.4124564 + 1 * 0.3575761 + 1 * 0.1804375) / 0.95047 = 1 by norm_num,
      show ((1 : ℝ) * 0.2126729 + 1 * 0.7151522 + 1 * 0.0721750) / 1.00000 = 1.0000001 by
        norm_num,
      show ((1 : ℝ) * 0.0193339 + 1 * 0.1191920 + 1 * 0.9503041) / 1.08883 = 1 by norm_num]
  obtain ⟨xr, hxr⟩ : ∃ x, (l2 * 0.4124564 + l1 * 0.3575761 + l1 * 0.1804375) / 0.95047 = x :=
    ⟨_, rfl⟩
  obtain ⟨yr, hyr⟩ : ∃ x, (l2 * 0.2126729 + l1 * 0.7151522 + l1 * 0.0721750) / 1.00000 = x :=
    ⟨_, rfl⟩
  obtain ⟨zr, hzr⟩ : ∃ x, (l2 * 0.0193339 + l1 * 0.1191920 + l1 * 0.9503041) / 1.08883 = x :=
    ⟨_, rfl⟩
  rw [hxr, hyr, hzr]
  have hxrB : (0.23690 : ℝ) ≤ xr ∧ xr ≤ 0.23693 := by
    rw [← hxr]
    constructor
    · rw [le_div_iff₀ (by norm_num : (0 : ℝ) < 0.95047)]
      linarith only [h32lo, h192lo]
    · rw [div_le_iff₀ (by norm_num : (0 : ℝ) < 0.95047)]
      linarith only [h32hi, h192hi]
  have hyrB : (0.123470 : ℝ) ≤ yr ∧ yr ≤ 0.123485 := by
    rw [← hyr]
    constructor
    · rw [le_div_iff₀ (by norm_num : (0 : ℝ) < 1.00000)]
      linarith only [h32lo, h192lo]
    · rw [div_le_iff₀ (by norm_num : (0 : ℝ) < 1.00000)]
      linarith only [h32hi, h192hi]
  have hzrB : (0.023542 : ℝ) ≤ zr ∧ zr ≤ 0.023556 := by
    rw [← hzr]
    constructor
    · rw [le_div_iff₀ (by norm_num : (0 : ℝ) < 1.08883)]
      linarith only [h32lo, h192lo]
    · rw [div_le_iff₀ (by norm_num : (0 : ℝ) < 1.08883)]
      linarith only [h32hi, h192hi]
  have hfl1 : fLab 1 = 1 := by
    rw [fLab, if_pos (by norm_num : (1 : ℝ) > ((6 : ℝ) / 29) ^ (3 : ℕ))]
    exact Real.one_rpow _
  obtain ⟨hA1, hA2⟩ := fLab_in l1 0.01444 0.01445 0.24350 0.24358 h32lo h32hi
    (by norm_num) (by norm_num) (by norm_num) (by norm_num)
  obtain ⟨hB1, hB2⟩ := fLab_in (1.0000001 * l1) 0.01444 0.0144501 0.24350 0.24359
    (by linarith only [h32lo]) (by linarith only [h32hi])
    (by norm_num) (by norm_num) (by norm_num) (by norm_num)
  obtain ⟨hX1, hX2⟩ := fLab_in xr 0.23690 0.23693 0.61873 0.61880 hxrB.1 hxrB.2
    (by norm_num) (by norm_num) (by norm_num) (by norm_num)
  obtain ⟨hY1, hY2⟩ := fLab_in yr 0.123470 0.123485 0.49794 0.49799 hyrB.1 hyrB.2
    (by norm_num) (by norm_num) (by norm_num) (by norm_num)
  obtain ⟨hZ1, hZ2⟩ := fLab_in zr 0.023542 0.023556 0.28656 0.28670 hzrB.1 hzrB.2
    (by norm_num) (by norm_num) (by norm_num) (by norm_num)
  obtain ⟨hW1, hW2⟩ := fLab_in 1.0000001 1.0000001 1.0000001 1 1.00000004 le_rfl le_rfl
    (by norm_num) (by norm_num) (by norm_num) (by norm_num)
  rw [hfl1]
  obtain ⟨A, hsA⟩ : ∃ x, fLab l1 = x := ⟨_, rfl⟩
  obtain ⟨B, hsB⟩ : ∃ x, fLab (1.0000001 * l1) = x := ⟨_, rfl⟩
  obtain ⟨X, hsX⟩ : ∃ x, fLab xr = x := ⟨_, rfl⟩
  obtain ⟨Y, hsY⟩ : ∃ x, fLab yr = x := ⟨_, rfl⟩
  obtain ⟨Z, hsZ⟩ : ∃ x, fLab zr = x := ⟨_, rfl⟩
  obtain ⟨W, hsW⟩ : ∃ x, fLab (1.0000001 : ℝ) = x := ⟨_, rfl⟩
  rw [hsA] at hA1 hA2 ⊢
  rw [hsB] at hB1 hB2 ⊢
  rw [hsX] at hX1 hX2 ⊢
  rw [hsY] at hY1 hY2 ⊢
  rw [hsZ] at hZ1 hZ2 ⊢
  rw [hsW] at hW1 hW2 ⊢
  have hdL1 : 116 * B - 16 - (116 * Y - 16) ≤ -29.504 := by linarith only [hB2, hY1]
  have hdL2 : (-29.521 : ℝ) ≤ 116 * B - 16 - (116 * Y - 16) := by linarith only [hB1, hY2]
  have hdLsq1 : (116 * B - 16 - (116 * Y - 16)) ^ 2 ≤ 871.49 := by nlinarith only [hdL1, hdL2]
  have hdLsq2 : (870.48 : ℝ) ≤ (116 * B - 16 - (116 * Y - 16)) ^ 2 := by nlinarith only [hdL1]
  have hda1 : 500 * (A - B) - 500 * (X - Y) ≤ -60.33 := by
    linarith only [hA2, hB1, hX1, hY2]
  have hda2 : (-60.475 : ℝ) ≤ 500 * (A - B) - 500 * (X - Y) := by
    linarith only [hA1, hB2, hX2, hY1]
  have hdasq1 : (500 * (A - B) - 500 * (X - Y)) ^ 2 ≤ 3657.23 := by
    nlinarith only [hda1, hda2]
  have hdasq2 : (3639.70 : ℝ) ≤ (500 * (A - B) - 500 * (X - Y)) ^ 2 := by
    nlinarith only [hda1]
  have hdb1 : 200 * (B - A) - 200 * (Y - Z) ≤ -42.23 := by
    linarith only [hB2, hA1, hZ2, hY1]
  have hdb2 : (-42.302 : ℝ) ≤ 200 * (B - A) - 200 * (Y - Z) := by
    linarith only [hB1, hA2, hZ1, hY2]
  have hdbsq1 : (200 * (B - A) - 200 * (Y - Z)) ^ 2 ≤ 1789.46 := by
    nlinarith only [hdb1, hdb2]
  have hdbsq2 : (1783.37 : ℝ) ≤ (200 * (B - A) - 200 * (Y - Z)) ^ 2 := by
    nlinarith only [hdb1]
  have hgL1 : 116 * B - 16 - (116 * W - 16) ≤ -87.7435 := by linarith only [hB2, hW1]
  have hgL2 : (-87.7541 : ℝ) ≤ 116 * B - 16 - (116 * W - 16) := by linarith only [hB1, hW2]
  have hgLsq1 : (116 * B - 16 - (116 * W - 16)) ^ 2 ≤ 7700.79 := by
    nlinarith only [hgL1, hgL2]
  have hgLsq2 : (7698.92 : ℝ) ≤ (116 * B - 16 - (116 * W - 16)) ^ 2 := by
    nlinarith only [hgL1]
  have hga1 : 500 * (A - B) - 500 * (1 - W) ≤ 0.041 := by linarith only [hA2, hB1, hW2]
  have hga2 : (-0.046 : ℝ) ≤ 500 * (A - B) - 500 * (1 - W) := by
    linarith only [hA1, hB2, hW1]
  have hgasq1 : (500 * (A - B) - 500 * (1 - W)) ^ 2 ≤ 0.00212 := by
    nlinarith only [hga1, hga2]
  have hgasq2 : (0 : ℝ) ≤ (500 * (A - B) - 500 * (1 - W)) ^ 2 := sq_nonneg _
  have hgb1 : 200 * (B - A) - 200 * (W - 1) ≤ 0.019 := by linarith only [hB2, hA1, hW1]
  have hgb2 : (-0.017 : ℝ) ≤ 200 * (B - A) - 200 * (W - 1) := by
    linarith only [hB1, hA2, hW2]
  have hgbsq1 : (200 * (B - A) - 200 * (W - 1)) ^ 2 ≤ 0.00037 := by
    nlinarith only [hgb1, hgb2]
  have hgbsq2 : (0 : ℝ) ≤ (200 * (B - A) - 200 * (W - 1)) ^ 2 := sq_nonneg _
  constructor
  · exact Real.sqrt_lt_sqrt (by positivity)
      (by linarith only [hdLsq1, hdasq1, hdbsq1, hgLsq2, hgasq2, hgbsq2])
  · have hg : Real.sqrt ((116 * B - 16 - (116 * W - 16)) ^ 2 +
        (500 * (A - B) - 500 * (1 - W)) ^ 2 + (200 * (B - A) - 200 * (W - 1)) ^ 2) ≤
        87.755 := by
      have h := Real.sqrt_le_sqrt (show (116 * B - 16 - (116 * W - 16)) ^ 2 +
          (500 * (A - B) - 500 * (1 - W)) ^ 2 + (200 * (B - A) - 200 * (W - 1)) ^ 2 ≤
          (87.755 : ℝ) ^ 2 by nlinarith only [hgLsq1, hgasq1, hgbsq1])
      rwa [Real.sqrt_sq (by norm_num : (0 : ℝ) ≤ 87.755)] at h
    have hr : (79.3 : ℝ) ≤ Real.sqrt ((116 * B - 16 - (116 * Y - 16)) ^ 2 +
        (500 * (A - B) - 500 * (X - Y)) ^ 2 + (200 * (B - A) - 200 * (Y - Z)) ^ 2) := by
      have h := Real.sqrt_le_sqrt (show (79.3 : ℝ) ^ 2 ≤
          (116 * B - 16 - (116 * Y - 16)) ^ 2 + (500 * (A - B) - 500 * (X - Y)) ^ 2 +
          (200 * (B - A) - 200 * (Y - Z)) ^ 2 by nlinarith only [hdLsq2, hdasq2, hdbsq2])
      rwa [Real.sqrt_sq (by norm_num : (0 : ℝ) ≤ 79.3)] at h
    have hpen : (87.755 : ℝ) < 79.3 + 160 / 255 * 50 := by norm_num
    linarith only [hg, hr, hpen]

def c3Palette : List BeadColor :=
  [⟨"red1", "#c02020", "Dark Red"⟩, ⟨"white1", "#ffffff", "White"⟩]

/-- C3: for a near-gray image color (`#202020`), `match_colors` in `lab`
mode applies the saturation penalty `color_saturation * 50` to every bead,
steering the match toward a neutral bead: against a palette of dark red
`#c02020` and white `#ffffff` it selects white, even though the red bead is
strictly closer in plain LAB distance. -/
theorem match_colors_neutral_penalty :
    (match_colors ["#202020"] "lab" [] c3Palette).map
        (fun ms => ms.map (fun m => m.bead_color_id)) = .ok ["white1"] ∧
    lab_distance (rgb_to_lab 32 32 32) (rgb_to_lab 192 32 32) <
      lab_distance (rgb_to_lab 32 32 32) (rgb_to_lab 255 255 255) := by
  obtain ⟨key1, key2⟩ := lab_core_bounds
  refine ⟨?_, key1⟩
  have hq : hex_to_rgb "#202020".toList = some ((32 : ℤ), 32, 32) := by decide
  have hneutral : is_neutral_color 32 32 32 = true := by decide
  have hparse : c3Palette.mapM
      (fun bc => (hex_to_rgb bc.hex.toList).map (fun v => (bc, v))) =
      some [(⟨"red1", "#c02020", "Dark Red"⟩, ((192 : ℤ), 32, 32)),
            (⟨"white1", "#ffffff", "White"⟩, ((255 : ℤ), 255, 255))] := by decide
  have hlt : lab_distance (rgb_to_lab 32 32 32) (rgb_to_lab 255 255 255) +
      color_saturation 255 255 255 * 50 <
      lab_distance (rgb_to_lab 32 32 32) (rgb_to_lab 192 32 32) +
      color_saturation 192 32 32 * 50 := by
    have hm1 : max (255 : ℤ) (max 255 255) = 255 := by decide
    have hm2 : min (255 : ℤ) (min 255 255) = 255 := by decide
    have hm3 : max (192 : ℤ) (max 32 32) = 192 := by decide
    have hm4 : min (192 : ℤ) (min 32 32) = 32 := by decide
    simp only [color_saturation, hm1, hm2, hm3, hm4]
    push_cast
    linarith only [key2]
  have hloop : matchLoop "lab" ((32 : ℤ), (32 : ℤ), (32 : ℤ)) true
      [(⟨"red1", "#c02020", "Dark Red"⟩, ((192 : ℤ), 32, 32)),
       (⟨"white1", "#ffffff", "White"⟩, ((255 : ℤ), 255, 255))] none =
      some (⟨"white1", "#ffffff", "White"⟩,
        lab_distance (rgb_to_lab 32 32 32) (rgb_to_lab 255 255 255) +
          color_saturation 255 255 255 * 50) := by
    simp only [matchLoop, reduceIte]
    rw [if_pos hlt]
  have hone : matchOne "lab" c3Palette "#202020" =
      .ok [⟨"#202020", "white1", "#ffffff", "White",
        lab_distance (rgb_to_lab 32 32 32) (rgb_to_lab 255 255 255) +
          color_saturation 255 255 255 * 50⟩] := by
    simp only [matchOne, hq, hparse, hneutral, hloop]
  have hstep : match_colors ["#202020"] "lab" [] c3Palette =
      (["#202020"].mapM (matchOne "lab" c3Palette)).map List.flatten := rfl
  rw [hstep]
  rw [show ["#202020"].mapM (matchOne "lab" c3Palette) =
      Except.ok [[⟨"#202020", "white1", "#ffffff", "White",
        lab_distance (rgb_to_lab 32 32 32) (rgb_to_lab 255 255 255) +
          color_saturation 255 255 255 * 50⟩]] by
    rw [List.mapM_cons, List.mapM_nil, hone]
    rfl]
  rfl

/-! ## ColorSpace inverse direction (src/backend/services/color_utils.py):
`lab_to_xyz`, `xyz_to_rgb`, `lab_to_rgb`, and the round-trip property.

Python's `round` is round-half-to-even; it is modelled exactly.  The
forward/inverse `f` and gamma branches are exact mutual inverses over `ℝ`;
the only round-trip error source is the rounded inverse sRGB matrix, whose
`N·M - I` rows have absolute sum below `3e-7` — far inside the claim's
`±1`-per-channel budget. -/

noncomputable def f_inv (t : ℝ) : ℝ :=
  if t > (6 : ℝ) / 29 then t ^ (3 : ℕ) else 3 * ((6 : ℝ) / 29) ^ (2 : ℕ) * (t - 4 / 29)

noncomputable def lab_to_xyz (L a b : ℝ) : ℝ × ℝ × ℝ :=
  let fy := (L + 16) / 116
  let fx := a / 500 + fy
  let fz := fy - b / 200
  (0.95047 * f_inv fx, 1.00000 * f_inv fy, 1.08883 * f_inv fz)

noncomputable def gamma_inv (val : ℝ) : ℝ :=
  if val > 0.0031308 then 1.055 * val ^ ((1 : ℝ) / 2.4) - 0.055 else 12.92 * val

/-- Python 3 `round`: round half to even. -/
noncomputable def pyRound (x : ℝ) : ℤ :=
  if Int.fract x = 1 / 2 then (if Even ⌊x⌋ then ⌊x⌋ else ⌊x⌋ + 1) else round x

noncomputable def xyz_to_rgb (x y z : ℝ) : ℤ × ℤ × ℤ :=
  let r_linear := x * 3.2404542 + y * (-1.5371385) + z * (-0.4985314)
  let g_linear := x * (-0.9692660) + y * 1.8760108 + z * 0.0415560
  let b_linear := x * 0.0556434 + y * (-0.2040259) + z * 1.0572252
  (max 0 (min 255 (pyRound (gamma_inv r_linear * 255))),
   max 0 (min 255 (pyRound (gamma_inv g_linear * 255))),
   max 0 (min 255 (pyRound (gamma_inv b_linear * 255))))

noncomputable def lab_to_rgb (L a b : ℝ) : ℤ × ℤ × ℤ :=
  xyz_to_rgb (lab_to_xyz L a b).1 (lab_to_xyz L a b).2.1 (lab_to_xyz L a b).2.2

theorem rpow_five_twelfths_bounds (v a b : ℝ) (hv : 0 ≤ v) (hb : 0 ≤ b)
    (h1 : a ^ (12 : ℕ) ≤ v ^ (5 : ℕ)) (h2 : v ^ (5 : ℕ) ≤ b ^ (12 : ℕ)) :
    a ≤ v ^ ((1 : ℝ) / 2.4) ∧ v ^ ((1 : ℝ) / 2.4) ≤ b := by
  have hvr : (0 : ℝ) ≤ v ^ ((1 : ℝ) / 2.4) := Real.rpow_nonneg hv _
  have h12 : (v ^ ((1 : ℝ) / 2.4)) ^ (12 : ℕ) = v ^ (5 : ℕ) := by
    rw [← Real.rpow_natCast (v ^ ((1 : ℝ) / 2.4)) 12, ← Real.rpow_mul hv]
    rw [show ((1 : ℝ) / 2.4 * ((12 : ℕ) : ℝ)) = ((5 : ℕ) : ℝ) by norm_num, Real.rpow_natCast]
  have k1 : a ^ (12 : ℕ) ≤ (v ^ ((1 : ℝ) / 2.4)) ^ (12 : ℕ) := by rw [h12]; exact h1
  have k2 : (v ^ ((1 : ℝ) / 2.4)) ^ (12 : ℕ) ≤ b ^ (12 : ℕ) := by rw [h12]; exact h2
  exact ⟨le_of_pow_le_pow_left₀ (by norm_num) hvr k1,
    le_of_pow_le_pow_left₀ (by norm_num) hb k2⟩

/-- Subadditivity of `x ^ p` on nonnegative reals for `0 ≤ p ≤ 1`. -/
theorem real_rpow_subadd (x y p : ℝ) (hx : 0 ≤ x) (hy : 0 ≤ y) (hp : 0 ≤ p) (hp1 : p ≤ 1) :
    (x + y) ^ p ≤ x ^ p + y ^ p := by
  have h := NNReal.rpow_add_le_add_rpow x.toNNReal y.toNNReal hp hp1
  calc (x + y) ^ p = (((x.toNNReal + y.toNNReal : NNReal) : ℝ)) ^ p := by
        push_cast
        rw [Real.coe_toNNReal x hx, Real.coe_toNNReal y hy]
    _ = (((x.toNNReal + y.toNNReal) ^ p : NNReal) : ℝ) := (NNReal.coe_rpow _ _).symm
    _ ≤ ((x.toNNReal ^ p + y.toNNReal ^ p : NNReal) : ℝ) := by exact_mod_cast h
    _ = x ^ p + y ^ p := by
        push_cast [NNReal.coe_rpow]
        rw [Real.coe_toNNReal x hx, Real.coe_toNNReal y hy]

/-- A modulus of continuity for `· ^ (1/2.4)` on nonnegative reals. -/
theorem rpow_diff_abs_le (x y d : ℝ) (hx : 0 ≤ x) (hy : 0 ≤ y) (h : |x - y| ≤ d) :
    |x ^ ((1 : ℝ) / 2.4) - y ^ ((1 : ℝ) / 2.4)| ≤ d ^ ((1 : ℝ) / 2.4) := by
  rcases le_total y x with hxy | hxy
  · have h1 : x - y ≤ d := le_trans (le_abs_self _) h
    have hsub := real_rpow_subadd y (x - y) ((1 : ℝ) / 2.4) hy (by linarith) (by norm_num)
      (by norm_num)
    rw [show y + (x - y) = x by ring] at hsub
    have hm1 : y ^ ((1 : ℝ) / 2.4) ≤ x ^ ((1 : ℝ) / 2.4) :=
      Real.rpow_le_rpow hy hxy (by norm_num)
    have hm2 : (x - y) ^ ((1 : ℝ) / 2.4) ≤ d ^ ((1 : ℝ) / 2.4) :=
      Real.rpow_le_rpow (by linarith) h1 (by norm_num)
    rw [abs_of_nonneg (by linarith)]
    linarith
  · have h1 : y - x ≤ d := by rw [abs_sub_comm] at h; exact le_trans (le_abs_self _) h
    have hsub := real_rpow_subadd x (y - x) ((1 : ℝ) / 2.4) hx (by linarith) (by norm_num)
      (by norm_num)
    rw [show x + (y - x) = y by ring] at hsub
    have hm1 : x ^ ((1 : ℝ) / 2.4) ≤ y ^ ((1 : ℝ) / 2.4) :=
      Real.rpow_le_rpow hx hxy (by norm_num)
    have hm2 : (y - x) ^ ((1 : ℝ) / 2.4) ≤ d ^ ((1 : ℝ) / 2.4) :=
      Real.rpow_le_rpow (by linarith) h1 (by norm_num)
    rw [abs_sub_comm, abs_of_nonneg (by linarith)]
    linarith

/-- The source's `f_inv` is an exact left inverse of its `f` on nonnegative
reals: the branch thresholds `delta ** 3` and `delta` correspond exactly. -/
theorem f_inv_fLab (t : ℝ) (ht : 0 ≤ t) : f_inv (fLab t) = t := by
  rw [fLab]
  by_cases h : t > ((6 : ℝ) / 29) ^ (3 : ℕ)
  · rw [if_pos h, f_inv,
      if_pos (show t ^ ((1 : ℝ) / 3) > (6 : ℝ) / 29 by
        have h1 : ((6 : ℝ) / 29) = (((6 : ℝ) / 29) ^ (3 : ℕ)) ^ ((1 : ℝ) / 3) := by
          rw [← Real.rpow_natCast ((6 : ℝ) / 29) 3, ← Real.rpow_mul (by norm_num)]
          norm_num
        rw [h1]
        exact Real.rpow_lt_rpow (by positivity) h (by norm_num))]
    rw [← Real.rpow_natCast (t ^ ((1 : ℝ) / 3)) 3, ← Real.rpow_mul ht]
    norm_num
  · rw [if_neg h, f_inv,
      if_neg (not_lt.2 (show t / (3 * ((6 : ℝ) / 29) ^ (2 : ℕ)) + 4 / 29 ≤ (6 : ℝ) / 29 by
        have ht3 : t ≤ 216 / 24389 := by
          have h3 := not_lt.1 h
          rw [show ((6 : ℝ) / 29) ^ (3 : ℕ) = 216 / 24389 by norm_num] at h3
          exact h3
        rw [show (3 : ℝ) * ((6 : ℝ) / 29) ^ (2 : ℕ) = 108 / 841 by norm_num]
        linarith only [ht3]))]
    ring

/-- `lab_to_xyz` undoes `xyz_to_lab` exactly on nonnegative coordinates. -/
theorem xyz_roundtrip (x y z : ℝ) (hx : 0 ≤ x) (hy : 0 ≤ y) (hz : 0 ≤ z) :
    lab_to_xyz (xyz_to_lab x y z).1 (xyz_to_lab x y z).2.1 (xyz_to_lab x y z).2.2 =
      (x, y, z) := by
  simp only [xyz_to_lab, lab_to_xyz]
  have e2 : 500 * (fLab (x / 0.95047) - fLab (y / 1.00000)) / 500 +
      (116 * fLab (y / 1.00000) - 16 + 16) / 116 = fLab (x / 0.95047) := by ring
  have e3 : (116 * fLab (y / 1.00000) - 16 + 16) / 116 -
      200 * (fLab (y / 1.00000) - fLab (z / 1.08883)) / 200 = fLab (z / 1.08883) := by ring
  have e1 : (116 * fLab (y / 1.00000) - 16 + 16) / 116 = fLab (y / 1.00000) := by ring
  rw [e2, e3, e1, f_inv_fLab (x / 0.95047) (div_nonneg hx (by norm_num)),
    f_inv_fLab (y / 1.00000) (div_nonneg hy (by norm_num)),
    f_inv_fLab (z / 1.08883) (div_nonneg hz (by norm_num))]
  simp only [Prod.mk.injEq]
  refine ⟨?_, ?_, ?_⟩ <;> (rw [mul_comm]; exact div_mul_cancel₀ _ (by norm_num))

/-- The gamma correction maps `[0,1]` into `[0,1]`. -/
theorem gamma_mem (v : ℝ) (h0 : 0 ≤ v) (h1 : v ≤ 1) :
    0 ≤ gamma_correct v ∧ gamma_correct v ≤ 1 := by
  rw [gamma_correct]
  by_cases h : v > 0.04045
  · rw [if_pos h]
    refine ⟨Real.rpow_nonneg (div_nonneg (by linarith) (by norm_num)) _, ?_⟩
    refine Real.rpow_le_one (div_nonneg (by linarith) (by norm_num)) ?_ (by norm_num)
    rw [div_le_one (by norm_num)]
    linarith
  · rw [if_neg h]
    constructor
    · exact div_nonneg h0 (by norm_num)
    · rw [div_le_one (by norm_num)]
      linarith

/-- For the 256 discrete channel values the gamma branches of the forward
and inverse direction agree, so `gamma_inv` inverts `gamma_correct`
exactly. -/
theorem gamma_inv_gamma (r : ℤ) (h0 : 0 ≤ r) (h1 : r ≤ 255) :
    gamma_inv (gamma_correct ((r : ℝ) / 255)) = (r : ℝ) / 255 := by
  have hr0 : (0 : ℝ) ≤ (r : ℝ) := by exact_mod_cast h0
  rcases le_or_lt ((r : ℝ)) 10 with hle | hgt
  · rw [gamma_correct, if_neg (not_lt.2 (show (r : ℝ) / 255 ≤ 0.04045 by linarith))]
    rw [gamma_inv, if_neg (not_lt.2 (show (r : ℝ) / 255 / 12.92 ≤ 0.0031308 by
      rw [div_le_iff₀ (by norm_num : (0 : ℝ) < 12.92)]
      linarith))]
    ring
  · have h10 : (10 : ℤ) < r := by exact_mod_cast hgt
    have h11 : (11 : ℝ) ≤ (r : ℝ) := by exact_mod_cast (by omega : (11 : ℤ) ≤ r)
    rw [gamma_correct, if_pos (show (r : ℝ) / 255 > 0.04045 by
      rw [gt_iff_lt, lt_div_iff₀ (by norm_num : (0 : ℝ) < 255)]
      linarith)]
    have hw0 : (0 : ℝ) ≤ ((r : ℝ) / 255 + 0.055) / 1.055 :=
      div_nonneg (by positivity) (by norm_num)
    have hw : (1001 : ℝ) / 10761 ≤ ((r : ℝ) / 255 + 0.055) / 1.055 := by
      rw [le_div_iff₀ (by norm_num : (0 : ℝ) < 1.055)]
      linarith
    have hbr : (0.0031308 : ℝ) < (((r : ℝ) / 255 + 0.055) / 1.055) ^ (2.4 : ℝ) := by
      have hmono := Real.rpow_le_rpow (by norm_num : (0 : ℝ) ≤ 1001 / 10761) hw
        (by norm_num : (0 : ℝ) ≤ (2.4 : ℝ))
      have hlow := (rpow_twelve_fifths_bounds ((1001 : ℝ) / 10761) 0.00325 1 (by norm_num)
        (by norm_num) (by norm_num) (by norm_num)).1
      linarith
    rw [gamma_inv, if_pos hbr, ← Real.rpow_mul hw0,
      show (2.4 : ℝ) * ((1 : ℝ) / 2.4) = 1 by norm_num, Real.rpow_one]
    ring

/-- Round-half-even differs from its argument by at most one half. -/
theorem pyRound_close (x : ℝ) : |(pyRound x : ℝ) - x| ≤ 1 / 2 := by
  rw [pyRound]
  by_cases h : Int.fract x = 1 / 2
  · rw [if_pos h]
    have hfl := Int.floor_add_fract x
    rw [h] at hfl
    by_cases he : Even ⌊x⌋
    · rw [if_pos he, abs_le]
      constructor <;> linarith
    · rw [if_neg he, abs_le]
      push_cast
      constructor <;> linarith
  · rw [if_neg h, abs_sub_comm]
    exact abs_sub_round x

/-- Perturbation bound for `gamma_inv`: moving the input by at most `3e-7`
moves the output by at most `0.00212` (the sRGB gamma branches nearly agree
at the threshold, and the power branch has exponent below one). -/
theorem gamma_inv_close (u x : ℝ) (hu : 0 ≤ u) (h : |x - u| ≤ 0.0000003) :
    |gamma_inv x - gamma_inv u| ≤ 0.00212 := by
  have hec : (0.0000003 : ℝ) ^ ((1 : ℝ) / 2.4) ≤ 0.002 :=
    (rpow_five_twelfths_bounds 0.0000003 0 0.002 (by norm_num) (by norm_num) (by norm_num)
      (by norm_num)).2
  have htau := rpow_five_twelfths_bounds 0.0031308 0.090473 0.0904745 (by norm_num)
    (by norm_num) (by norm_num) (by norm_num)
  obtain ⟨ht1, ht2⟩ := htau
  have h12 := abs_le.1 h
  rw [gamma_inv, gamma_inv]
  rcases le_or_lt x 0.0031308 with hx | hx <;> rcases le_or_lt u 0.0031308 with hu2 | hu2
  · rw [if_neg (not_lt.2 hx), if_neg (not_lt.2 hu2), abs_le]
    constructor <;> linarith only [h12.1, h12.2]
  · rw [if_neg (not_lt.2 hx), if_pos hu2]
    have hdiff := abs_le.1 (rpow_diff_abs_le 0.0031308 u 0.0000003 (by norm_num) hu
      (by rw [abs_le]; constructor <;> linarith only [h12.1, h12.2, hx, hu2]))
    rw [abs_le]
    constructor <;> linarith only [h12.1, h12.2, hx, hu2, hdiff.1, hdiff.2, ht1, ht2, hec]
  · rw [if_pos hx, if_neg (not_lt.2 hu2)]
    have hdiff := abs_le.1 (rpow_diff_abs_le x 0.0031308 0.0000003 (by linarith) (by norm_num)
      (by rw [abs_le]; constructor <;> linarith only [h12.1, h12.2, hx, hu2]))
    rw [abs_le]
    constructor <;> linarith only [h12.1, h12.2, hx, hu2, hdiff.1, hdiff.2, ht1, ht2, hec]
  · rw [if_pos hx, if_pos hu2]
    have hdiff := abs_le.1 (rpow_diff_abs_le x u 0.0000003 (by linarith) hu h)
    rw [abs_le]
    constructor <;> linarith only [hdiff.1, hdiff.2, hec]

/-- One recovered channel: if the inverse-matrix output is within `3e-7` of
the channel's exact linear value, the rounded and clamped result is within
one of the original channel. -/
theorem channel_recover (r : ℤ) (u : ℝ) (h0 : 0 ≤ r) (h1 : r ≤ 255)
    (hclose : |u - gamma_correct ((r : ℝ) / 255)| ≤ 0.0000003) :
    |max 0 (min 255 (pyRound (gamma_inv u * 255))) - r| ≤ 1 := by
  have hr0 : (0 : ℝ) ≤ (r : ℝ) := by exact_mod_cast h0
  have hr1 : (r : ℝ) ≤ 255 := by exact_mod_cast h1
  have hg0 : 0 ≤ gamma_correct ((r : ℝ) / 255) :=
    (gamma_mem ((r : ℝ) / 255) (div_nonneg hr0 (by norm_num))
      ((div_le_one (by norm_num)).mpr hr1)).1
  have hG := gamma_inv_close (gamma_correct ((r : ℝ) / 255)) u hg0 hclose
  rw [gamma_inv_gamma r h0 h1] at hG
  have hG2 := abs_le.1 hG
  have hX : |gamma_inv u * 255 - (r : ℝ)| ≤ 0.5406 := by
    rw [abs_le]
    constructor <;> nlinarith only [hG2.1, hG2.2]
  have hP := pyRound_close (gamma_inv u * 255)
  have hk : |(pyRound (gamma_inv u * 255) : ℝ) - (r : ℝ)| ≤ 1.0406 := by
    have htr := abs_sub_le ((pyRound (gamma_inv u * 255) : ℝ)) (gamma_inv u * 255) ((r : ℝ))
    linarith
  have hki : |pyRound (gamma_inv u * 255) - r| ≤ 1 := by
    have h3 : ((|pyRound (gamma_inv u * 255) - r| : ℤ) : ℝ) ≤ 1.0406 := by
      rw [Int.cast_abs]
      push_cast
      exact hk
    by_contra hc
    push_neg at hc
    have h4 : (2 : ℤ) ≤ |pyRound (gamma_inv u * 255) - r| := by omega
    have h5 : (2 : ℝ) ≤ ((|pyRound (gamma_inv u * 255) - r| : ℤ) : ℝ) := by exact_mod_cast h4
    linarith
  obtain ⟨hk1, hk2⟩ := abs_le.1 hki
  rw [abs_le]
  constructor <;> omega

/-- C6: converting any in-range RGB triple to LAB and back recovers every
channel to within `±1` (the result being clamped to `[0,255]` per channel):
the `f`/gamma branch pairs invert exactly over the reals, and the rounded
inverse sRGB matrix perturbs each linear channel by less than `3e-7`, which
the final rounding absorbs. -/
theorem lab_to_rgb_roundtrip (r g b : ℤ)
    (hr0 : 0 ≤ r) (hr1 : r ≤ 255) (hg0 : 0 ≤ g) (hg1 : g ≤ 255)
    (hb0 : 0 ≤ b) (hb1 : b ≤ 255) :
    |(lab_to_rgb (rgb_to_lab r g b).1 (rgb_to_lab r g b).2.1
        (rgb_to_lab r g b).2.2).1 - r| ≤ 1 ∧
    |(lab_to_rgb (rgb_to_lab r g b).1 (rgb_to_lab r g b).2.1
        (rgb_to_lab r g b).2.2).2.1 - g| ≤ 1 ∧
    |(lab_to_rgb (rgb_to_lab r g b).1 (rgb_to_lab r g b).2.1
        (rgb_to_lab r g b).2.2).2.2 - b| ≤ 1 := by
  have hRr : (0 : ℝ) ≤ (r : ℝ) := by exact_mod_cast hr0
  have hRr1 : (r : ℝ) ≤ 255 := by exact_mod_cast hr1
  have hGr : (0 : ℝ) ≤ (g : ℝ) := by exact_mod_cast hg0
  have hGr1 : (g : ℝ) ≤ 255 := by exact_mod_cast hg1
  have hBr : (0 : ℝ) ≤ (b : ℝ) := by exact_mod_cast hb0
  have hBr1 : (b : ℝ) ≤ 255 := by exact_mod_cast hb1
  obtain ⟨hR0, hR1⟩ := gamma_mem ((r : ℝ) / 255) (div_nonneg hRr (by norm_num))
    ((div_le_one (by norm_num)).mpr hRr1)
  obtain ⟨hG0, hG1⟩ := gamma_mem ((g : ℝ) / 255) (div_nonneg hGr (by norm_num))
    ((div_le_one (by norm_num)).mpr hGr1)
  obtain ⟨hB0, hB1⟩ := gamma_mem ((b : ℝ) / 255) (div_nonneg hBr (by norm_num))
    ((div_le_one (by norm_num)).mpr hBr1)
  have hx0 : 0 ≤ (rgb_to_xyz r g b).1 := by
    simp only [rgb_to_xyz]
    linarith only [hR0, hG0, hB0]
  have hy0 : 0 ≤ (rgb_to_xyz r g b).2.1 := by
    simp only [rgb_to_xyz]
    linarith only [hR0, hG0, hB0]
  have hz0 : 0 ≤ (rgb_to_xyz r g b).2.2 := by
    simp only [rgb_to_xyz]
    linarith only [hR0, hG0, hB0]
  have hrt := xyz_roundtrip (rgb_to_xyz r g b).1 (rgb_to_xyz r g b).2.1 (rgb_to_xyz r g b).2.2
    hx0 hy0 hz0
  rw [show rgb_to_lab r g b = xyz_to_lab (rgb_to_xyz r g b).1 (rgb_to_xyz r g b).2.1
      (rgb_to_xyz r g b).2.2 from rfl]
  simp only [lab_to_rgb]
  rw [hrt]
  simp only [xyz_to_rgb, rgb_to_xyz]
  refine ⟨?_, ?_, ?_⟩
  · refine channel_recover r _ hr0 hr1 ?_
    rw [abs_le]
    constructor <;> linarith only [hR0, hR1, hG0, hG1, hB0, hB1]
  · refine channel_recover g _ hg0 hg1 ?_
    rw [abs_le]
    constructor <;> linarith only [hR0, hR1, hG0, hG1, hB0, hB1]
  · refine channel_recover b _ hb0 hb1 ?_
    rw [abs_le]
    constructor <;> linarith only [hR0, hR1, hG0, hG1, hB0, hB1]

/-- C6 witness: the round trip at the concrete triple `(7, 130, 255)`. -/
theorem lab_to_rgb_roundtrip_witness :
    ((0 : ℤ) ≤ 7 ∧ (7 : ℤ) ≤ 255) ∧ ((0 : ℤ) ≤ 130 ∧ (130 : ℤ) ≤ 255) ∧
    ((0 : ℤ) ≤ 255 ∧ (255 : ℤ) ≤ 255) ∧
    (|(lab_to_rgb (rgb_to_lab 7 130 255).1 (rgb_to_lab 7 130 255).2.1
        (rgb_to_lab 7 130 255).2.2).1 - 7| ≤ 1 ∧
     |(lab_to_rgb (rgb_to_lab 7 130 255).1 (rgb_to_lab 7 130 255).2.1
        (rgb_to_lab 7 130 255).2.2).2.1 - 130| ≤ 1 ∧
     |(lab_to_rgb (rgb_to_lab 7 130 255).1 (rgb_to_lab 7 130 255).2.1
        (rgb_to_lab 7 130 255).2.2).2.2 - 255| ≤ 1) :=
  ⟨⟨by decide, by decide⟩, ⟨by decide, by decide⟩, ⟨by decide, by decide⟩,
   lab_to_rgb_roundtrip 7 130 255 (by decide) (by decide) (by decide) (by decide)
     (by decide) (by decide)⟩
